import Mathlib

/-!
# go-real-ip: the trust-and-substitute middleware of `realip.go`

A shallow embedding of `realip.go` and of the Go standard-library functions it
calls, followed by theorems about the embedded program.

Conventions of the embedding.

* A Go `string` is a `List Char` (the strings are taken to be valid UTF-8, so
  that a byte-wise scan for an ASCII byte such as `,` or `:` and a scan over
  the characters agree).  Error texts, which are never inspected, are `String`s.
* A byte is a `Nat`; byte slices (`net.IP`, `net.IPMask`) are `List Nat`.
* A Go function returning `(..., error)` returns `Except error ...`.  The
  result of `net.ParseIP`, which the program tests against `nil`, is an
  `Option`; inside package `net` a `nil` slice is the empty list.
* A `for ... range` loop with an early `return` or `break` is a recursive
  function over the list being ranged over.
* An index returned by the Go runtime as `-1` for "not found" is `none`.

The standard-library functions (`strings`, `unicode`, `net`, `net/netip`,
`net/textproto`, `net/http`) are not part of the repository; they are
transcribed from the Go standard library, in the form the `net` package has
had since the `net/netip` based parser.
-/

set_option autoImplicit false

/-! ## Errors -/

/-- The Go `error` values that the program can produce. -/
inductive error where
  /-- `&net.AddrError{Err: Err, Addr: Addr}`, from `net.SplitHostPort`. -/
  | AddrError (Err : String) (Addr : List Char)
  /-- `&net.ParseError{Type: Typ, Text: Text}`, from `net.ParseCIDR`. -/
  | ParseError (Typ : String) (Text : List Char)
  /-- `errors.New(text)`. -/
  | New (text : String)
  deriving DecidableEq, Repr

/-- The method `Error()` of the error values: the text of the error. -/
def error.Error : error → List Char
  | .AddrError Err Addr =>
    if Addr ≠ [] then "address ".toList ++ Addr ++ ": ".toList ++ Err.toList else Err.toList
  | .ParseError Typ Text => "invalid ".toList ++ Typ.toList ++ ": ".toList ++ Text
  | .New text => text.toList

/-! ## Package `unicode` and package `strings` -/

namespace unicode

/-- `unicode.IsSpace`: the Unicode `White_Space` property. -/
def IsSpace (r : Char) : Bool :=
  let n := r.toNat
  if n ≤ 0xFF then
    n = 0x09 ∨ n = 0x0A ∨ n = 0x0B ∨ n = 0x0C ∨ n = 0x0D ∨ n = 0x20 ∨ n = 0x85 ∨ n = 0xA0
  else
    n = 0x1680 ∨ (0x2000 ≤ n ∧ n ≤ 0x200A) ∨ n = 0x2028 ∨ n = 0x2029 ∨ n = 0x202F ∨
      n = 0x205F ∨ n = 0x3000

end unicode

namespace bytealg

/-- `bytealg.IndexByteString(s, c)`: index of the first `c` in `s`. -/
def IndexByteString : List Char → Char → Option Nat
  | [], _ => none
  | x :: xs, c => if x = c then some 0 else (IndexByteString xs c).map (· + 1)

/-- `bytealg.LastIndexByteString(s, c)`: index of the last `c` in `s`. -/
def LastIndexByteString : List Char → Char → Option Nat
  | [], _ => none
  | x :: xs, c =>
    match LastIndexByteString xs c with
    | some i => some (i + 1)
    | none => if x = c then some 0 else none

end bytealg

namespace strings

/-- `strings.Split(s, sep)` for a separator `sep` of one ASCII byte: the
substrings between the separators; an `s` without separator (the empty string
included) gives the one-element list `[s]`. -/
def Split : List Char → Char → List (List Char)
  | [], _ => [[]]
  | c :: rest, sep =>
    if c = sep then [] :: Split rest sep
    else
      match Split rest sep with
      | [] => [[c]]
      | seg :: segs => (c :: seg) :: segs

/-- `strings.TrimSpace(s)`: `s` without its leading and trailing white space. -/
def TrimSpace (s : List Char) : List Char :=
  (s.dropWhile unicode.IsSpace).rdropWhile unicode.IsSpace

end strings

/-! ## Package `net/netip`: the address parser -/

namespace netip

/-- A `netip.Addr`: an IPv4 address (four bytes) or an IPv6 address (sixteen
bytes and a zone, which is empty when there is none). -/
inductive Addr where
  | v4 (fields : List Nat)
  | v6 (ip : List Nat) (zone : List Char)
  deriving DecidableEq, Repr

/-- The loop of `parseIPv4Fields` over the bytes of `s[i:]`; `prev` is
`s[i-1]` (`none` when `i = 0`), `fields` the octets stored so far
(`fields[0:pos]`), and the result is the four octets. -/
def parseIPv4Fields.loop :
    Option Char → List Char → (val pos digLen : Nat) → List Nat → Option (List Nat)
  | _, [], val, pos, _, fields =>
    if pos < 3 then none else some (fields ++ [val])
  | prev, c :: rest, val, pos, digLen, fields =>
    if '0' ≤ c ∧ c ≤ '9' then
      if digLen = 1 ∧ val = 0 then none
      else
        let val := val * 10 + (c.toNat - '0'.toNat)
        if val > 255 then none
        else parseIPv4Fields.loop (some c) rest val pos (digLen + 1) fields
    else if c = '.' then
      if prev = none ∨ rest = [] ∨ prev = some '.' then none
      else if pos = 3 then none
      else parseIPv4Fields.loop (some c) rest 0 (pos + 1) 0 (fields ++ [val])
    else none

/-- `parseIPv4Fields(in, off, end, fields)` on `s = in[off:end]`: the four
decimal octets of a dotted quad, `none` on a parse error. -/
def parseIPv4Fields (s : List Char) : Option (List Nat) :=
  parseIPv4Fields.loop none s 0 0 0 []

/-- `parseIPv4(s)`. -/
def parseIPv4 (s : List Char) : Option Addr :=
  (parseIPv4Fields s).map Addr.v4

/-- The value of a hexadecimal digit, as the three branches of the inner loop
of `parseIPv6` compute it; `none` for any other byte. -/
def parseIPv6.digit (c : Char) : Option Nat :=
  if '0' ≤ c ∧ c ≤ '9' then some (c.toNat - '0'.toNat)
  else if 'a' ≤ c ∧ c ≤ 'f' then some (c.toNat - 'a'.toNat + 10)
  else if 'A' ≤ c ∧ c ≤ 'F' then some (c.toNat - 'A'.toNat + 10)
  else none

/-- The inner loop of `parseIPv6` that reads one hexadecimal group: from
`s[off:]` with accumulator `acc`, the result is the final `off`, the value and
the unread rest `s[off:]`; `none` when the group has more than four digits or
overflows sixteen bits. -/
def parseIPv6.hex : List Char → (off acc : Nat) → Option (Nat × Nat × List Char)
  | [], off, acc => some (off, acc, [])
  | c :: rest, off, acc =>
    match parseIPv6.digit c with
    | none => some (off, acc, c :: rest)
    | some d =>
      let acc := acc * 16 + d
      if off > 3 then none
      else if acc > 0xFFFF then none
      else parseIPv6.hex rest (off + 1) acc

/-- The `for i < 16` loop of `parseIPv6`.  `ip` holds the bytes `ip[0:i]`
written so far (so `i` is `ip.length`), and `k` counts the two-byte groups that
still fit, `k = (16 - i) / 2`: the loop ends when `k = 0`, that is `i = 16`.
The result is the state `(s, ellipsis, ip)` at the exit of the loop; `none` is
a parse error. -/
def parseIPv6.loop :
    (k : Nat) → (s : List Char) → (ellipsis : Option Nat) → (ip : List Nat) →
      Option (List Char × Option Nat × List Nat)
  | 0, s, ellipsis, ip => some (s, ellipsis, ip)
  | k + 1, s, ellipsis, ip =>
    match parseIPv6.hex s 0 0 with
    | none => none
    | some (off, acc, rest) =>
      if off = 0 then none
      else if rest.head? = some '.' then
        if ellipsis = none ∧ ip.length ≠ 12 then none
        else if ip.length + 4 > 16 then none
        else
          match parseIPv4Fields s with
          | none => none
          | some fields => some ([], ellipsis, ip ++ fields)
      else
        let ip := ip ++ [acc / 256, acc % 256]
        match rest with
        | [] => some ([], ellipsis, ip)
        | c :: rest1 =>
          if c ≠ ':' then none
          else
            match rest1 with
            | [] => none
            | c1 :: rest2 =>
              if c1 = ':' then
                if ellipsis.isSome then none
                else
                  match rest2 with
                  | [] => some ([], some ip.length, ip)
                  | _ :: _ => parseIPv6.loop k rest2 (some ip.length) ip
              else parseIPv6.loop k rest1 ellipsis ip

/-- The end of `parseIPv6`, after the loop: the whole string must have been
used, and a short address is completed by expanding the ellipsis. -/
def parseIPv6.finish (zone : List Char) :
    List Char × Option Nat × List Nat → Option Addr
  | (s, ellipsis, ip) =>
    if s.length ≠ 0 then none
    else if ip.length < 16 then
      match ellipsis with
      | none => none
      | some e =>
        some (Addr.v6 (ip.take e ++ List.replicate (16 - ip.length) 0 ++ ip.drop e) zone)
    else if ellipsis.isSome then none
    else some (Addr.v6 ip zone)

/-- The body of `parseIPv6` once the zone has been split off `s`. -/
def parseIPv6.body (s zone : List Char) : Option Addr :=
  match s with
  | ':' :: ':' :: [] => some (Addr.v6 (List.replicate 16 0) zone)
  | ':' :: ':' :: s1 => (parseIPv6.loop 8 s1 (some 0) []).bind (parseIPv6.finish zone)
  | _ => (parseIPv6.loop 8 s none []).bind (parseIPv6.finish zone)

/-- `parseIPv6(in)`. -/
def parseIPv6 (s : List Char) : Option Addr :=
  match bytealg.IndexByteString s '%' with
  | some i =>
    let zone := s.drop (i + 1)
    if zone = [] then none else parseIPv6.body (s.take i) zone
  | none => parseIPv6.body s []

/-- The loop of `netip.ParseAddr(s)` over the bytes `s[i:]`: the first `.`, `:`
or `%` decides how `s` is parsed. -/
def ParseAddr.loop (s : List Char) : List Char → Option Addr
  | [] => none
  | c :: rest =>
    if c = '.' then parseIPv4 s
    else if c = ':' then parseIPv6 s
    else if c = '%' then none
    else ParseAddr.loop s rest

/-- `netip.ParseAddr(s)`; `none` is a parse error. -/
def ParseAddr (s : List Char) : Option Addr :=
  ParseAddr.loop s s

/-- `Addr.Zone()`. -/
def Addr.Zone : Addr → List Char
  | .v4 _ => []
  | .v6 _ zone => zone

/-- `Addr.BitLen()`. -/
def Addr.BitLen : Addr → Nat
  | .v4 _ => 32
  | .v6 _ _ => 128

/-- `Addr.As16()`: an IPv4 address becomes the IPv4-mapped IPv6 address. -/
def Addr.As16 : Addr → List Nat
  | .v4 fields => [0, 0, 0, 0, 0, 0, 0, 0, 0, 0, 0xff, 0xff] ++ fields
  | .v6 ip _ => ip

end netip

/-! ## Package `net` -/

namespace net

/-- `net.IP`, a byte slice; the `nil` slice is `[]`. -/
abbrev IP := List Nat

/-- `net.IPMask`, a byte slice; the `nil` slice is `[]`. -/
abbrev IPMask := List Nat

/-- `net.IPNet`. -/
structure IPNet where
  IP : IP
  Mask : IPMask
  deriving DecidableEq, Repr

def IPv4len : Nat := 4

def IPv6len : Nat := 16

/-- `net.ParseIP(s)`: the sixteen-byte form of the address `s`, `none` (Go:
`nil`) when `s` is not an IPv4 or IPv6 literal, or carries a zone. -/
def ParseIP (s : List Char) : Option IP :=
  match netip.ParseAddr s with
  | none => none
  | some ip => if ip.Zone ≠ [] then none else some ip.As16

/-- `IP.To4()`: the four-byte form of an IPv4 address, `[]` otherwise. -/
def IP.To4 (ip : IP) : IP :=
  if ip.length = IPv4len then ip
  else if ip.length = IPv6len ∧ ip.take 10 = List.replicate 10 0 ∧
      ip.get? 10 = some 0xff ∧ ip.get? 11 = some 0xff then
    (ip.drop 12).take 4
  else []

/-- The loop of `CIDRMask` over the `l` bytes still to write, with `n` ones
left. -/
def CIDRMask.loop : (l n : Nat) → IPMask
  | 0, _ => []
  | l + 1, n =>
    if n ≥ 8 then 0xff :: CIDRMask.loop l (n - 8)
    else (0xff - (0xff >>> n)) :: CIDRMask.loop l 0

/-- `net.CIDRMask(ones, bits)`. -/
def CIDRMask (ones bits : Nat) : IPMask :=
  if bits ≠ 8 * IPv4len ∧ bits ≠ 8 * IPv6len then []
  else if ones > bits then []
  else CIDRMask.loop (bits / 8) ones

/-- `IP.Mask(mask)`. -/
def IP.Mask (ip : IP) (mask : IPMask) : IP :=
  let mask := if mask.length = IPv6len ∧ ip.length = IPv4len ∧
      mask.take 12 = List.replicate 12 0xff
    then mask.drop 12 else mask
  let ip := if mask.length = IPv4len ∧ ip.length = IPv6len ∧
      ip.take 12 = [0, 0, 0, 0, 0, 0, 0, 0, 0, 0, 0xff, 0xff]
    then ip.drop 12 else ip
  if ip.length ≠ mask.length then []
  else List.zipWith (· &&& ·) ip mask

/-- `networkNumberAndMask(n)`; `([], [])` is Go's `(nil, nil)`. -/
def networkNumberAndMask (n : IPNet) : IP × IPMask :=
  let ip4 := n.IP.To4
  if ip4 = [] ∧ n.IP.length ≠ IPv6len then ([], [])
  else
    let ip := if ip4 = [] then n.IP else ip4
    if n.Mask.length = IPv4len then
      if ip.length ≠ IPv4len then ([], []) else (ip, n.Mask)
    else if n.Mask.length = IPv6len then
      if ip.length = IPv4len then (ip, n.Mask.drop 12) else (ip, n.Mask)
    else ([], [])

/-- The comparison loop of `IPNet.Contains` over the bytes `nn[i:]`, `m[i:]`
and `ip[i:]`. -/
def IPNet.Contains.loop : net.IP → IPMask → net.IP → Bool
  | a :: nn, b :: m, c :: ip =>
    if a &&& b ≠ c &&& b then false else IPNet.Contains.loop nn m ip
  | _, _, _ => true

/-- `IPNet.Contains(ip)`: whether the network includes `ip`. -/
def IPNet.Contains (n : IPNet) (ip : net.IP) : Bool :=
  let (nn, m) := networkNumberAndMask n
  let ip := if ip.To4 ≠ [] then ip.To4 else ip
  if ip.length ≠ nn.length then false
  else IPNet.Contains.loop nn m ip

/-- The loop of `dtoi(s)` over `s[i:]`: the decimal number at the start of the
string, as `(n, i, ok)`. -/
def dtoi.loop : List Char → (n i : Nat) → Nat × Nat × Bool
  | [], n, i => if i = 0 then (0, 0, false) else (n, i, true)
  | c :: rest, n, i =>
    if '0' ≤ c ∧ c ≤ '9' then
      let n := n * 10 + (c.toNat - '0'.toNat)
      if n ≥ 0xFFFFFF then (0xFFFFFF, i, false) else dtoi.loop rest n (i + 1)
    else if i = 0 then (0, 0, false) else (n, i, true)

/-- `dtoi(s)`. -/
def dtoi (s : List Char) : Nat × Nat × Bool :=
  dtoi.loop s 0 0

/-- `net.ParseCIDR(s)`: the address and the network of `"192.0.2.1/24"` or
`"2001:db8::/32"`. -/
def ParseCIDR (s : List Char) : Except error (IP × IPNet) :=
  match bytealg.IndexByteString s '/' with
  | none => .error (.ParseError "CIDR address" s)
  | some i =>
    let addr := s.take i
    let mask := s.drop (i + 1)
    match netip.ParseAddr addr with
    | none => .error (.ParseError "CIDR address" s)
    | some ipAddr =>
      if ipAddr.Zone ≠ [] then .error (.ParseError "CIDR address" s)
      else
        let (n, j, ok) := dtoi mask
        if !ok ∨ j ≠ mask.length ∨ n > ipAddr.BitLen then
          .error (.ParseError "CIDR address" s)
        else
          let m := CIDRMask n ipAddr.BitLen
          let addr16 : IP := ipAddr.As16
          .ok (addr16, { IP := addr16.Mask m, Mask := m })

/-- `net.SplitHostPort(hostport)`: `"host:port"`, `"[host]:port"` split into
host and port. -/
def SplitHostPort (hostport : List Char) : Except error (List Char × List Char) :=
  match bytealg.LastIndexByteString hostport ':' with
  | none => .error (.AddrError "missing port in address" hostport)
  | some i =>
    if hostport.head? = some '[' then
      match bytealg.IndexByteString hostport ']' with
      | none => .error (.AddrError "missing ']' in address" hostport)
      | some e =>
        if e + 1 = hostport.length then
          .error (.AddrError "missing port in address" hostport)
        else if e + 1 = i then
          tail ((hostport.take e).drop 1) 1 (e + 1) i
        else if hostport.get? (e + 1) = some ':' then
          .error (.AddrError "too many colons in address" hostport)
        else .error (.AddrError "missing port in address" hostport)
    else
      let host := hostport.take i
      if (bytealg.IndexByteString host ':').isSome then
        .error (.AddrError "too many colons in address" hostport)
      else tail host 0 0 i
where
  /-- The common end of `SplitHostPort`: no stray bracket after positions `j`
  and `k`, and the port is what follows the last colon, at `i`. -/
  tail (host : List Char) (j k i : Nat) : Except error (List Char × List Char) :=
    if (bytealg.IndexByteString (hostport.drop j) '[').isSome then
      .error (.AddrError "unexpected '[' in address" hostport)
    else if (bytealg.IndexByteString (hostport.drop k) ']').isSome then
      .error (.AddrError "unexpected ']' in address" hostport)
    else .ok (host, hostport.drop (i + 1))

/-- `net.JoinHostPort(host, port)`: `"host:port"`, or `"[host]:port"` when the
host contains a colon. -/
def JoinHostPort (host port : List Char) : List Char :=
  if (bytealg.IndexByteString host ':').isSome then
    ['['] ++ host ++ [']', ':'] ++ port
  else host ++ [':'] ++ port

end net

/-! ## Package `net/textproto` and package `net/http` -/

namespace textproto

/-- `validHeaderFieldByte(c)`: the bytes allowed in a header field name (the
token characters of RFC 7230). -/
def validHeaderFieldByte (c : Char) : Bool :=
  ('0' ≤ c ∧ c ≤ '9') ∨ ('a' ≤ c ∧ c ≤ 'z') ∨ ('A' ≤ c ∧ c ≤ 'Z') ∨
    c.toNat ∈ [0x21, 0x23, 0x24, 0x25, 0x26, 0x27, 0x2A, 0x2B, 0x2D, 0x2E, 0x5E, 0x5F, 0x60,
      0x7C, 0x7E]

/-- The second loop of `canonicalMIMEHeaderKey`: the first letter and every
letter after a dash in upper case, the other letters in lower case. -/
def canonicalMIMEHeaderKey.loop : (upper : Bool) → List Char → List Char
  | _, [] => []
  | upper, c :: rest =>
    let c :=
      if upper ∧ 'a' ≤ c ∧ c ≤ 'z' then Char.ofNat (c.toNat - 32)
      else if ¬ upper ∧ 'A' ≤ c ∧ c ≤ 'Z' then Char.ofNat (c.toNat + 32)
      else c
    c :: canonicalMIMEHeaderKey.loop (c = '-') rest

/-- `textproto.CanonicalMIMEHeaderKey(s)`: the canonical form of a header
name; a name with a byte that is not allowed in a field name is returned
unchanged. -/
def CanonicalMIMEHeaderKey (s : List Char) : List Char :=
  if s.all validHeaderFieldByte then canonicalMIMEHeaderKey.loop true s else s

end textproto

namespace http

/-- `http.Header`, a `map[string][]string`: the keys with their values; a
lookup finds the first entry of a key. -/
abbrev Header := List (List Char × List (List Char))

/-- `Header.Get(key)`: the first value of the canonical form of `key`, and
`""` when there is none. -/
def Header.Get (h : Header) (key : List Char) : List Char :=
  match h.lookup (textproto.CanonicalMIMEHeaderKey key) with
  | none => []
  | some [] => []
  | some (v :: _) => v

/-- `Header.Set(key, value)`: the canonical form of `key` gets the single
value `value`. -/
def Header.Set (h : Header) (key value : List Char) : Header :=
  (textproto.CanonicalMIMEHeaderKey key, [value]) ::
    h.filter (fun e => e.1 ≠ textproto.CanonicalMIMEHeaderKey key)

/-- The part of an `http.Request` that the program reads or writes. -/
structure Request where
  RemoteAddr : List Char
  Header : Header
  deriving DecidableEq, Repr

/-- A call made on an `http.ResponseWriter`. -/
inductive Call where
  /-- `http.Error(w, error, code)`. -/
  | Error (error : List Char) (code : Nat)
  /-- `w.WriteHeader(code)`. -/
  | WriteHeader (code : Nat)
  /-- `w.Write(data)`. -/
  | Write (data : List Char)
  deriving DecidableEq, Repr

/-- An `http.ResponseWriter` is represented by the calls made on it so far,
oldest first. -/
abbrev ResponseWriter := List Call

/-- `http.Error(w, error, code)`: reply with the error text and status code. -/
def Error (w : ResponseWriter) (error : List Char) (code : Nat) : ResponseWriter :=
  w ++ [Call.Error error code]

/-- An `http.Handler`: `ServeHTTP(w, r)` may write to `w` and may change the
request behind the pointer `r`; the result is the state of both afterwards. -/
abbrev Handler := ResponseWriter → Request → ResponseWriter × Request

end http

/-! ## Package `realip` (`realip.go`) -/

namespace realip

open http (Request ResponseWriter)

/-- `var errBadIP = errors.New("invalid ip address")`. -/
def errBadIP : error := error.New "invalid ip address"

/-- `type RealIP struct`. -/
structure RealIP where
  allowed : List net.IPNet
  headers : List (List Char)
  deriving DecidableEq, Repr

/-- The loop `for _, i := range nets` of `New`, with the instance `ri` built
so far. -/
def New.loop (ri : RealIP) : List (List Char) → Except error RealIP
  | [] => .ok ri
  | i :: nets =>
    match net.ParseCIDR i with
    | .error err => .error err
    | .ok (_, n) => New.loop { ri with allowed := ri.allowed ++ [n] } nets

/-- `New(headers, nets)` creates a new RealIP that uses the given headers and
networks. -/
def New (headers nets : List (List Char)) : Except error RealIP :=
  New.loop { allowed := [], headers := headers } nets

/-- The loop of `parseIP` over the comma-separated parts. -/
def parseIP.loop : List (List Char) → List Char
  | [] => []
  | ip :: rest =>
    let ip := strings.TrimSpace ip
    if (net.ParseIP ip).isSome then ip else parseIP.loop rest

/-- `parseIP(val)`. -/
def parseIP (val : List Char) : List Char :=
  parseIP.loop (strings.Split val ',')

/-- The loop of `getHeader` over the configured header names. -/
def RealIP.getHeader.loop (r : Request) : List (List Char) → List Char
  | [] => []
  | h :: rest =>
    let v := r.Header.Get h
    if v ≠ [] then v else RealIP.getHeader.loop r rest

/-- `(ri *RealIP) getHeader(r)`. -/
def RealIP.getHeader (ri : RealIP) (r : Request) : List Char :=
  RealIP.getHeader.loop r ri.headers

/-- `getRemoteAddress(r)`: the IP and the port of `r.RemoteAddr`. -/
def getRemoteAddress (r : Request) : Except error (net.IP × List Char) :=
  match net.SplitHostPort r.RemoteAddr with
  | .error err => .error err
  | .ok (address, port) =>
    match net.ParseIP address with
    | none => .error errBadIP
    | some ip => .ok (ip, port)

/-- `(ri *RealIP) getRealIPValue(r)`. -/
def RealIP.getRealIPValue (ri : RealIP) (r : Request) : List Char :=
  let header := ri.getHeader r
  if header = [] then [] else parseIP header

/-- The loop `for _, n := range ri.allowed` of the wrapped handler: the
request as the loop leaves it. -/
def RealIP.Handler.loop (ri : RealIP) (ip : net.IP) (port : List Char) (r : Request) :
    List net.IPNet → Request
  | [] => r
  | n :: rest =>
    if n.Contains ip then
      let val := ri.getRealIPValue r
      if val ≠ [] then { r with RemoteAddr := net.JoinHostPort val port } else r
    else RealIP.Handler.loop ri ip port r rest

/-- `(ri *RealIP) Handler(h)` wraps another Handler. -/
def RealIP.Handler (ri : RealIP) (h : http.Handler) : http.Handler :=
  fun w r =>
    match getRemoteAddress r with
    | .error _ => (http.Error w "invalid remote address".toList 400, r)
    | .ok (ip, port) =>
      let r := RealIP.Handler.loop ri ip port r ri.allowed
      h w r

end realip

/-! ## The handler and the requests of `realip_test.go` -/

namespace realip_test

/-- The handler of `TestHandlerPass` and `TestHandlerFail`: status 200 and the
body `"Hello World\n"`. -/
def handler : http.Handler :=
  fun w req => (w ++ [http.Call.WriteHeader 200, http.Call.Write "Hello World\n".toList], req)

/-- `newRequest(method, url, remoteAddr, xff)`, without the method and the URL,
which the program does not read. -/
def newRequest (remoteAddr xff : List Char) : http.Request :=
  { RemoteAddr := remoteAddr, Header := http.Header.Set [] "X-Forwarded-For".toList xff }

/-- The instance that `New([X-Forwarded-For], [8.8.0.0/16])` returns in
`TestHandlerPass` and `TestHandlerFail`. -/
def ri : realip.RealIP :=
  { allowed := [{ IP := [8, 8, 0, 0], Mask := [255, 255, 0, 0] }],
    headers := ["X-Forwarded-For".toList] }

/-- The instance of `ExampleNew` restricted to the range of the tests: the
headers X-Forwarded-For and X-Real-IP, in this order, and the range
8.8.0.0/16. -/
def ri2 : realip.RealIP :=
  { allowed := [{ IP := [8, 8, 0, 0], Mask := [255, 255, 0, 0] }],
    headers := ["X-Forwarded-For".toList, "X-Real-IP".toList] }

/-- A request like those of `newRequest` that also carries an X-Real-IP
header. -/
def newRequest2 (remoteAddr xff xri : List Char) : http.Request :=
  { RemoteAddr := remoteAddr,
    Header := http.Header.Set (http.Header.Set [] "X-Forwarded-For".toList xff)
      "X-Real-IP".toList xri }

end realip_test

/-! ## Definitions used to state the properties -/

namespace netip

/-- The bytes that can occur in an IP literal without zone: hexadecimal
digits, the dot and the colon. -/
def addrByte (c : Char) : Bool :=
  (parseIPv6.digit c).isSome || c == '.' || c == ':'

end netip

namespace realip

open http (Request ResponseWriter)

/-- The result of `parseIP` in the words of its contract: split the header
value on commas, trim the white space around each part, and take the first
part that is an IP literal; the empty string when there is none. -/
def firstValidToken (val : List Char) : List Char :=
  (((strings.Split val ',').map strings.TrimSpace).find?
    (fun t => (net.ParseIP t).isSome)).getD []

/-- A request whose `RemoteAddr` cannot be split into host and port, or whose
host part is not an IP literal. -/
def invalidRemoteAddr (r : Request) : Prop :=
  (∀ host port, net.SplitHostPort r.RemoteAddr ≠ .ok (host, port)) ∨
    ∃ host port, net.SplitHostPort r.RemoteAddr = .ok (host, port) ∧ net.ParseIP host = none

end realip

/-! ## Lemmas on the byte searches -/

namespace bytealg

theorem IndexByteString_eq_none {s : List Char} {c : Char} :
    IndexByteString s c = none ↔ c ∉ s := by
  induction s with
  | nil => simp [IndexByteString]
  | cons x xs ih =>
    by_cases h : x = c
    · simp [IndexByteString, h]
    · have h2 : ¬ c = x := fun e => h e.symm
      simp [IndexByteString, h, h2, ih]

theorem IndexByteString_isSome {s : List Char} {c : Char} :
    (IndexByteString s c).isSome = true ↔ c ∈ s := by
  rw [← not_iff_not, ← IndexByteString_eq_none]
  cases IndexByteString s c <;> simp

theorem IndexByteString_eq_some {s : List Char} {c : Char} {i : Nat}
    (h : IndexByteString s c = some i) :
    ∃ a b, s = a ++ c :: b ∧ c ∉ a ∧ i = a.length := by
  induction s generalizing i with
  | nil => simp [IndexByteString] at h
  | cons x xs ih =>
    by_cases hx : x = c
    · simp [IndexByteString, hx] at h
      exact ⟨[], xs, by simp [hx], by simp, by simp [h]⟩
    · simp only [IndexByteString, hx, if_false, Option.map_eq_some'] at h
      obtain ⟨j, hj, rfl⟩ := h
      obtain ⟨a, b, rfl, hca, rfl⟩ := ih hj
      refine ⟨x :: a, b, by simp, ?_, by simp⟩
      simp only [List.mem_cons, not_or]
      exact ⟨fun e => hx e.symm, hca⟩

theorem IndexByteString_append_cons {a b : List Char} {c : Char} (h : c ∉ a) :
    IndexByteString (a ++ c :: b) c = some a.length := by
  induction a with
  | nil => simp [IndexByteString]
  | cons x xs ih =>
    simp only [List.mem_cons, not_or] at h
    have hx : ¬ x = c := fun e => h.1 e.symm
    simp [IndexByteString, hx, ih h.2]

theorem LastIndexByteString_eq_none {s : List Char} {c : Char} :
    LastIndexByteString s c = none ↔ c ∉ s := by
  induction s with
  | nil => simp [LastIndexByteString]
  | cons x xs ih =>
    simp only [LastIndexByteString, List.mem_cons, not_or]
    cases hl : LastIndexByteString xs c with
    | none =>
      have := ih.mp hl
      by_cases h : x = c
      · simp [h]
      · have h2 : ¬ c = x := fun e => h e.symm
        simp [h, h2, this]
    | some j =>
      have : ¬ c ∉ xs := fun hn => by simp [ih.mpr hn] at hl
      simp [this]

theorem LastIndexByteString_eq_some {s : List Char} {c : Char} {i : Nat}
    (h : LastIndexByteString s c = some i) :
    ∃ a b, s = a ++ c :: b ∧ c ∉ b ∧ i = a.length := by
  induction s generalizing i with
  | nil => simp [LastIndexByteString] at h
  | cons x xs ih =>
    simp only [LastIndexByteString] at h
    cases hl : LastIndexByteString xs c with
    | none =>
      rw [hl] at h
      by_cases hx : x = c
      · simp [hx] at h
        exact ⟨[], xs, by simp [hx], LastIndexByteString_eq_none.mp hl, by simp [h]⟩
      · simp [hx] at h
    | some j =>
      rw [hl] at h
      simp only [Option.some.injEq] at h
      obtain ⟨a, b, rfl, hcb, rfl⟩ := ih hl
      exact ⟨x :: a, b, by simp, hcb, by simp [← h]⟩

theorem LastIndexByteString_append_cons {a b : List Char} {c : Char} (h : c ∉ b) :
    LastIndexByteString (a ++ c :: b) c = some a.length := by
  induction a with
  | nil => simp [LastIndexByteString, LastIndexByteString_eq_none.mpr h]
  | cons x xs ih => simp [LastIndexByteString, ih]

end bytealg

/-! ## Lemmas on `net.SplitHostPort` and `net.JoinHostPort` -/

namespace net

theorem SplitHostPort_tail_ok {hostport host h p : List Char} {j k i : Nat}
    (hok : SplitHostPort.tail hostport host j k i = .ok (h, p)) :
    h = host ∧ p = hostport.drop (i + 1) ∧ '[' ∉ hostport.drop j ∧ ']' ∉ hostport.drop k := by
  unfold SplitHostPort.tail at hok
  split at hok
  · cases hok
  · split at hok
    · cases hok
    · rename_i h1 h2
      simp only [Except.ok.injEq, Prod.mk.injEq] at hok
      refine ⟨hok.1.symm, hok.2.symm, ?_, ?_⟩
      · rw [← bytealg.IndexByteString_isSome]; exact h1
      · rw [← bytealg.IndexByteString_isSome]; exact h2

theorem mem_drop_of_le {l : List Char} {c : Char} {j n : Nat} (hjn : j ≤ n)
    (h : c ∈ l.drop n) : c ∈ l.drop j := by
  have : l.drop n = (l.drop j).drop (n - j) := by
    rw [List.drop_drop]; congr 1; omega
  rw [this] at h
  exact List.mem_of_mem_drop h

/-- A port returned by `SplitHostPort` has no colon and no bracket; a host
returned by it is what stands before the last colon, without its brackets. -/
theorem SplitHostPort_port {hostport host port : List Char}
    (hok : SplitHostPort hostport = .ok (host, port)) :
    ':' ∉ port ∧ '[' ∉ port ∧ ']' ∉ port := by
  unfold SplitHostPort at hok
  split at hok
  · cases hok
  · rename_i i hi
    obtain ⟨a, b, rfl, hcb, rfl⟩ := bytealg.LastIndexByteString_eq_some hi
    have hdrop : (a ++ ':' :: b).drop (a.length + 1) = b := by
      have : a ++ ':' :: b = (a ++ [':']) ++ b := by simp
      rw [this]; exact List.drop_left' (by simp)
    split at hok
    · split at hok
      · cases hok
      · rename_i e he
        split at hok
        · cases hok
        · split at hok
          · rename_i h1 h2
            obtain ⟨-, hp, hj, hk⟩ := SplitHostPort_tail_ok hok
            rw [hdrop] at hp
            subst hp
            refine ⟨hcb, ?_, ?_⟩
            · intro hm; apply hj
              rw [← hdrop] at hm
              exact mem_drop_of_le (by omega) hm
            · intro hm; apply hk
              rw [← hdrop] at hm
              exact mem_drop_of_le (by omega) hm
          · split at hok <;> cases hok
    · dsimp only at hok
      split at hok
      · cases hok
      · obtain ⟨-, hp, hj, hk⟩ := SplitHostPort_tail_ok hok
        rw [hdrop] at hp
        subst hp
        refine ⟨hcb, ?_, ?_⟩
        · intro hm; apply hj
          rw [← hdrop] at hm
          exact mem_drop_of_le (by omega) hm
        · intro hm; apply hk
          rw [← hdrop] at hm
          exact mem_drop_of_le (by omega) hm

/-- Splitting what `JoinHostPort` joined gives the two parts back, for a host
without brackets and a port without colon or bracket. -/
theorem SplitHostPort_JoinHostPort {host port : List Char}
    (hh1 : '[' ∉ host) (hh2 : ']' ∉ host)
    (hp0 : ':' ∉ port) (hp1 : '[' ∉ port) (hp2 : ']' ∉ port) :
    SplitHostPort (JoinHostPort host port) = .ok (host, port) := by
  unfold JoinHostPort
  split
  · rename_i hc
    have e1 : ['['] ++ host ++ [']', ':'] ++ port = ('[' :: host ++ [']']) ++ ':' :: port := by
      simp
    have e2 : ['['] ++ host ++ [']', ':'] ++ port = ('[' :: host) ++ ']' :: (':' :: port) := by
      simp
    have hlast : bytealg.LastIndexByteString (['['] ++ host ++ [']', ':'] ++ port) ':'
        = some (host.length + 2) := by
      rw [e1, bytealg.LastIndexByteString_append_cons hp0]; simp
    have hfirst : bytealg.IndexByteString (['['] ++ host ++ [']', ':'] ++ port) ']'
        = some (host.length + 1) := by
      rw [e2, bytealg.IndexByteString_append_cons (by simp [hh2])]; simp
    have hhost : ((['['] ++ host ++ [']', ':'] ++ port).take (host.length + 1)).drop 1 = host := by
      rw [e2, List.take_left' (by simp)]; simp
    have hd1 : (['['] ++ host ++ [']', ':'] ++ port).drop 1 = host ++ ']' :: ':' :: port := by
      simp
    have hd2 : (['['] ++ host ++ [']', ':'] ++ port).drop (host.length + 1 + 1)
        = ':' :: port := by
      rw [e1, List.drop_left' (by simp)]
    have hd3 : (['['] ++ host ++ [']', ':'] ++ port).drop (host.length + 2 + 1) = port := by
      have : ['['] ++ host ++ [']', ':'] ++ port = ('[' :: host ++ [']', ':']) ++ port := by
        simp
      rw [this, List.drop_left' (by simp)]
    unfold SplitHostPort
    rw [hlast]
    simp only [hfirst]
    have hhead : (['['] ++ host ++ [']', ':'] ++ port).head? = some '[' := by simp
    rw [if_pos hhead]
    have hlen : ¬ host.length + 1 + 1 = (['['] ++ host ++ [']', ':'] ++ port).length := by
      simp
    rw [if_neg hlen, if_pos trivial]
    unfold SplitHostPort.tail
    rw [hhost, hd1, hd2, hd3]
    have n1 : ¬ (bytealg.IndexByteString (host ++ ']' :: ':' :: port) '[').isSome = true := by
      rw [bytealg.IndexByteString_isSome]; simp [hh1, hp1]
    have n2 : ¬ (bytealg.IndexByteString (':' :: port) ']').isSome = true := by
      rw [bytealg.IndexByteString_isSome]; simp [hp2]
    rw [if_neg n1, if_neg n2]
  · rename_i hc
    have hc0 : ':' ∉ host := by
      rw [← bytealg.IndexByteString_isSome]; exact hc
    have hlast : bytealg.LastIndexByteString (host ++ [':'] ++ port) ':' = some host.length := by
      have : host ++ [':'] ++ port = host ++ ':' :: port := by simp
      rw [this, bytealg.LastIndexByteString_append_cons hp0]
    have hhead : ¬ (host ++ [':'] ++ port).head? = some '[' := by
      cases host with
      | nil => simp
      | cons x xs =>
        simp only [List.mem_cons, not_or] at hh1
        simp only [List.cons_append, List.head?_cons, Option.some.injEq]
        exact fun e => hh1.1 e.symm
    have htake : (host ++ [':'] ++ port).take host.length = host := by
      rw [List.append_assoc, List.take_left' rfl]
    have hd3 : (host ++ [':'] ++ port).drop (host.length + 1) = port := by
      rw [List.drop_left' (by simp)]
    unfold SplitHostPort
    rw [hlast]
    simp only [htake]
    rw [if_neg hhead, if_neg hc]
    unfold SplitHostPort.tail
    rw [hd3]
    have n1 : ¬ (bytealg.IndexByteString ((host ++ [':'] ++ port).drop 0) '[').isSome = true := by
      rw [bytealg.IndexByteString_isSome]; simp [hh1, hp1]
    have n2 : ¬ (bytealg.IndexByteString ((host ++ [':'] ++ port).drop 0) ']').isSome = true := by
      rw [bytealg.IndexByteString_isSome]; simp [hh2, hp2]
    rw [if_neg n1, if_neg n2]

end net

/-! ## Lemmas on the address parser -/

namespace netip

theorem addrByte_of_digit {c : Char} (h : '0' ≤ c ∧ c ≤ '9') : addrByte c = true := by
  simp [addrByte, parseIPv6.digit, h]

theorem parseIPv4Fields_loop_bytes {prev : Option Char} {s : List Char}
    {val pos digLen : Nat} {fields r : List Nat}
    (h : parseIPv4Fields.loop prev s val pos digLen fields = some r) :
    ∀ c ∈ s, addrByte c = true := by
  induction s generalizing prev val pos digLen fields with
  | nil => simp
  | cons c rest ih =>
    unfold parseIPv4Fields.loop at h
    intro x hx
    split at h
    · rename_i hd
      split at h
      · cases h
      · dsimp only at h
        split at h
        · cases h
        · rcases List.mem_cons.mp hx with rfl | hx
          · exact addrByte_of_digit hd
          · exact ih h x hx
    · split at h
      · rename_i hdot
        split at h
        · cases h
        · split at h
          · cases h
          · rcases List.mem_cons.mp hx with rfl | hx
            · simp [addrByte, hdot]
            · exact ih h x hx
      · cases h

theorem parseIPv6_hex_bytes {s rest : List Char} {off acc off1 acc1 : Nat}
    (h : parseIPv6.hex s off acc = some (off1, acc1, rest)) :
    ∃ pre, s = pre ++ rest ∧ ∀ c ∈ pre, addrByte c = true := by
  induction s generalizing off acc with
  | nil =>
    simp only [parseIPv6.hex, Option.some.injEq, Prod.mk.injEq] at h
    exact ⟨[], by simp [← h.2.2], by simp⟩
  | cons c t ih =>
    unfold parseIPv6.hex at h
    split at h
    · simp only [Option.some.injEq, Prod.mk.injEq] at h
      exact ⟨[], by simp [← h.2.2], by simp⟩
    · rename_i d hd
      dsimp only at h
      split at h
      · cases h
      · split at h
        · cases h
        · obtain ⟨pre, rfl, hpre⟩ := ih h
          refine ⟨c :: pre, by simp, ?_⟩
          intro x hx
          rcases List.mem_cons.mp hx with rfl | hx
          · simp [addrByte, hd]
          · exact hpre x hx

theorem parseIPv6_loop_bytes {k : Nat} {s s1 : List Char} {e e1 : Option Nat}
    {ip ip1 : List Nat}
    (h : parseIPv6.loop k s e ip = some (s1, e1, ip1)) :
    ∃ pre, s = pre ++ s1 ∧ ∀ c ∈ pre, addrByte c = true := by
  induction k generalizing s e ip with
  | zero =>
    simp only [parseIPv6.loop, Option.some.injEq, Prod.mk.injEq] at h
    exact ⟨[], by simp [h.1], by simp⟩
  | succ k ih =>
    unfold parseIPv6.loop at h
    split at h
    · cases h
    · rename_i off acc rest hhex
      obtain ⟨pre0, rfl, hpre0⟩ := parseIPv6_hex_bytes hhex
      split at h
      · cases h
      · rcases rest with _ | ⟨c, rest1⟩
        · simp only [List.head?_nil, reduceCtorEq, if_false, Option.some.injEq,
            Prod.mk.injEq] at h
          exact ⟨pre0, by simp [← h.1], hpre0⟩
        · by_cases hdot : c = '.'
          · subst hdot
            simp only [List.head?_cons, if_true] at h
            split at h
            · cases h
            · split at h
              · cases h
              · split at h
                · cases h
                · rename_i fields hf
                  simp only [Option.some.injEq, Prod.mk.injEq] at h
                  refine ⟨pre0 ++ '.' :: rest1, by simp [← h.1], ?_⟩
                  exact parseIPv4Fields_loop_bytes hf
          · have hnd : ¬ (c :: rest1).head? = some '.' := by simpa using hdot
            rw [if_neg hnd] at h
            dsimp only at h
            by_cases hc : c = ':'
            · subst hc
              simp only [ne_eq, not_true_eq_false, if_false] at h
              rcases rest1 with _ | ⟨c1, rest2⟩
              · cases h
              · dsimp only at h
                by_cases hc1 : c1 = ':'
                · subst hc1
                  rw [if_pos rfl] at h
                  split at h
                  · cases h
                  · rcases rest2 with _ | ⟨c2, rest3⟩
                    · simp only [Option.some.injEq, Prod.mk.injEq] at h
                      refine ⟨pre0 ++ [':', ':'], by simp [← h.1], ?_⟩
                      intro x hx
                      rcases List.mem_append.mp hx with hx | hx
                      · exact hpre0 x hx
                      · simp at hx
                        subst hx
                        rfl
                    · dsimp only at h
                      obtain ⟨pre2, h2, hpre2⟩ := ih h
                      refine ⟨pre0 ++ ':' :: ':' :: pre2, by simp [h2], ?_⟩
                      intro x hx
                      rcases List.mem_append.mp hx with hx | hx
                      · exact hpre0 x hx
                      · simp only [List.mem_cons] at hx
                        rcases hx with rfl | rfl | hx
                        · rfl
                        · rfl
                        · exact hpre2 x hx
                · rw [if_neg hc1] at h
                  obtain ⟨pre1, h1, hpre1⟩ := ih h
                  refine ⟨pre0 ++ ':' :: pre1, by simp [h1], ?_⟩
                  intro x hx
                  rcases List.mem_append.mp hx with hx | hx
                  · exact hpre0 x hx
                  · simp only [List.mem_cons] at hx
                    rcases hx with rfl | hx
                    · rfl
                    · exact hpre1 x hx
            · have hne : c ≠ ':' := hc
              rw [if_pos hne] at h
              cases h

/-- The counter `k` of `parseIPv6.loop` stands for the loop condition
`i < 16`: started with `i + 2 * k = 16`, the loop is left either by a `break`,
with the whole string read, or at `k = 0` with `i = 16`. -/
theorem parseIPv6_loop_exit {k : Nat} {s s1 : List Char} {e e1 : Option Nat}
    {ip ip1 : List Nat}
    (h : parseIPv6.loop k s e ip = some (s1, e1, ip1)) (hk : ip.length + 2 * k = 16) :
    s1 = [] ∨ ip1.length = 16 := by
  induction k generalizing s e ip with
  | zero =>
    simp only [parseIPv6.loop, Option.some.injEq, Prod.mk.injEq] at h
    right
    rw [← h.2.2]; omega
  | succ k ih =>
    unfold parseIPv6.loop at h
    split at h
    · cases h
    · rename_i off acc rest hhex
      split at h
      · cases h
      · rcases rest with _ | ⟨c, rest1⟩
        · simp only [List.head?_nil, reduceCtorEq, if_false, Option.some.injEq,
            Prod.mk.injEq] at h
          exact Or.inl h.1.symm
        · by_cases hdot : c = '.'
          · subst hdot
            simp only [List.head?_cons, if_true] at h
            split at h
            · cases h
            · split at h
              · cases h
              · split at h
                · cases h
                · simp only [Option.some.injEq, Prod.mk.injEq] at h
                  exact Or.inl h.1.symm
          · have hnd : ¬ (c :: rest1).head? = some '.' := by simpa using hdot
            rw [if_neg hnd] at h
            dsimp only at h
            by_cases hc : c = ':'
            · subst hc
              simp only [ne_eq, not_true_eq_false, if_false] at h
              rcases rest1 with _ | ⟨c1, rest2⟩
              · cases h
              · dsimp only at h
                by_cases hc1 : c1 = ':'
                · subst hc1
                  rw [if_pos rfl] at h
                  split at h
                  · cases h
                  · rcases rest2 with _ | ⟨c2, rest3⟩
                    · simp only [Option.some.injEq, Prod.mk.injEq] at h
                      exact Or.inl h.1.symm
                    · dsimp only at h
                      exact ih h (by simp; omega)
                · rw [if_neg hc1] at h
                  exact ih h (by simp; omega)
            · have hne : c ≠ ':' := hc
              rw [if_pos hne] at h
              cases h

theorem parseIPv6_finish_ok {zone : List Char} {st : List Char × Option Nat × List Nat}
    {a : Addr} (h : parseIPv6.finish zone st = some a) :
    st.1 = [] ∧ a.Zone = zone := by
  obtain ⟨s, e, ip⟩ := st
  unfold parseIPv6.finish at h
  dsimp only at h
  split at h
  · cases h
  · rename_i hs
    have hs : s = [] := by simpa using hs
    split at h
    · split at h
      · cases h
      · simp only [Option.some.injEq] at h
        subst h; exact ⟨hs, rfl⟩
    · split at h
      · cases h
      · simp only [Option.some.injEq] at h
        subst h; exact ⟨hs, rfl⟩

theorem parseIPv6_loop_finish_bytes {k : Nat} {s zone : List Char} {e : Option Nat}
    {ip : List Nat} {a : Addr}
    (h : (parseIPv6.loop k s e ip).bind (parseIPv6.finish zone) = some a) :
    (∀ c ∈ s, addrByte c = true) ∧ a.Zone = zone := by
  cases hl : parseIPv6.loop k s e ip with
  | none => simp [hl] at h
  | some st =>
    obtain ⟨s1, e1, ip1⟩ := st
    rw [hl] at h
    simp only [Option.some_bind] at h
    obtain ⟨h1, h2⟩ := parseIPv6_finish_ok h
    obtain ⟨pre, rfl, hpre⟩ := parseIPv6_loop_bytes hl
    dsimp only at h1
    subst h1
    simpa using ⟨hpre, h2⟩

theorem parseIPv6_body_bytes {s zone : List Char} {a : Addr}
    (h : parseIPv6.body s zone = some a) :
    (∀ c ∈ s, addrByte c = true) ∧ a.Zone = zone := by
  unfold parseIPv6.body at h
  split at h
  · simp only [Option.some.injEq] at h
    subst h
    refine ⟨?_, rfl⟩
    intro x hx
    simp at hx
    subst hx; rfl
  · obtain ⟨h1, h2⟩ := parseIPv6_loop_finish_bytes h
    refine ⟨?_, h2⟩
    intro x hx
    simp only [List.mem_cons] at hx
    rcases hx with rfl | rfl | hx
    · rfl
    · rfl
    · exact h1 x hx
  · exact parseIPv6_loop_finish_bytes h

theorem parseIPv6_bytes {s : List Char} {a : Addr}
    (h : parseIPv6 s = some a) (hz : a.Zone = []) : ∀ c ∈ s, addrByte c = true := by
  unfold parseIPv6 at h
  split at h
  · dsimp only at h
    split at h
    · cases h
    · rename_i hzone
      exact absurd ((parseIPv6_body_bytes h).2.symm.trans hz) hzone
  · exact (parseIPv6_body_bytes h).1

theorem ParseAddr_loop_eq {s t : List Char} {a : Addr}
    (h : ParseAddr.loop s t = some a) : parseIPv4 s = some a ∨ parseIPv6 s = some a := by
  induction t with
  | nil => simp [ParseAddr.loop] at h
  | cons c rest ih =>
    unfold ParseAddr.loop at h
    split at h
    · exact Or.inl h
    · split at h
      · exact Or.inr h
      · split at h
        · cases h
        · exact ih h

theorem ParseAddr_bytes {s : List Char} {a : Addr}
    (h : ParseAddr s = some a) (hz : a.Zone = []) :
    s ≠ [] ∧ ∀ c ∈ s, addrByte c = true := by
  constructor
  · rintro rfl
    simp [ParseAddr, ParseAddr.loop] at h
  · rcases ParseAddr_loop_eq h with h4 | h6
    · unfold parseIPv4 parseIPv4Fields at h4
      cases hf : parseIPv4Fields.loop none s 0 0 0 [] with
      | none => simp [hf] at h4
      | some r => exact parseIPv4Fields_loop_bytes hf
    · exact parseIPv6_bytes h6 hz

end netip

namespace net

/-- A string that `ParseIP` accepts is not empty and consists of hexadecimal
digits, dots and colons. -/
theorem ParseIP_bytes {s : List Char} {ip : IP} (h : ParseIP s = some ip) :
    s ≠ [] ∧ ∀ c ∈ s, netip.addrByte c = true := by
  unfold ParseIP at h
  split at h
  · cases h
  · rename_i a ha
    split at h
    · cases h
    · rename_i hz
      exact netip.ParseAddr_bytes ha (by simpa using hz)

end net

namespace netip

theorem addrByte_toNat {c : Char} (h : addrByte c = true) :
    (48 ≤ c.toNat ∧ c.toNat ≤ 58) ∨ (65 ≤ c.toNat ∧ c.toNat ≤ 70) ∨
      (97 ≤ c.toNat ∧ c.toNat ≤ 102) ∨ c.toNat = 46 := by
  unfold addrByte at h
  simp only [Bool.or_eq_true, beq_iff_eq] at h
  rcases h with (h | rfl) | rfl
  · unfold parseIPv6.digit at h
    split at h
    · rename_i hd
      have hd : 48 ≤ c.toNat ∧ c.toNat ≤ 57 := hd
      omega
    · split at h
      · rename_i hd
        have hd : 97 ≤ c.toNat ∧ c.toNat ≤ 102 := hd
        omega
      · split at h
        · rename_i hd
          have hd : 65 ≤ c.toNat ∧ c.toNat ≤ 70 := hd
          omega
        · simp at h
  · right; right; right; rfl
  · left; decide

theorem addrByte_ne {c d : Char} (h : addrByte c = true) (hd : addrByte d = false) : d ≠ c := by
  rintro rfl
  rw [h] at hd
  cases hd

theorem addrByte_not_space {c : Char} (h : addrByte c = true) : unicode.IsSpace c = false := by
  have := addrByte_toNat h
  unfold unicode.IsSpace
  simp only [Bool.decide_or, Bool.decide_and]
  have h1 : c.toNat ≤ 0xFF := by omega
  rw [if_pos h1]
  simp
  omega

end netip

namespace strings

theorem Split_of_not_mem {s : List Char} {sep : Char} (h : sep ∉ s) : Split s sep = [s] := by
  induction s with
  | nil => rfl
  | cons c rest ih =>
    simp only [List.mem_cons, not_or] at h
    have hc : ¬ c = sep := fun e => h.1 e.symm
    simp [Split, hc, ih h.2]

theorem Split_append_sep {a rest : List Char} {sep : Char} (h : sep ∉ a) :
    Split (a ++ sep :: rest) sep = a :: Split rest sep := by
  induction a with
  | nil => simp [Split]
  | cons c t ih =>
    simp only [List.mem_cons, not_or] at h
    have hc : ¬ c = sep := fun e => h.1 e.symm
    simp [Split, hc, ih h.2]

theorem TrimSpace_eq_self {s : List Char} (h : ∀ c ∈ s, unicode.IsSpace c = false) :
    TrimSpace s = s := by
  unfold TrimSpace
  have h1 : s.dropWhile unicode.IsSpace = s := by
    cases s with
    | nil => rfl
    | cons c t => simp [List.dropWhile, h c (by simp)]
  rw [h1]
  rw [List.rdropWhile_eq_self_iff]
  intro hl
  have := h (s.getLast hl) (List.getLast_mem hl)
  simp [this]

end strings

namespace realip

open http (Request ResponseWriter)

/-! ## Lemmas on the functions of `realip.go` -/

theorem New_loop_ok {ri ri1 : RealIP} {nets : List (List Char)}
    (h : New.loop ri nets = .ok ri1) :
    ri1.headers = ri.headers ∧
      ∃ ns, ri1.allowed = ri.allowed ++ ns ∧
        List.Forall₂ (fun s n => ∃ ip, net.ParseCIDR s = .ok (ip, n)) nets ns := by
  induction nets generalizing ri with
  | nil =>
    simp only [New.loop, Except.ok.injEq] at h
    subst h
    exact ⟨rfl, [], by simp, List.Forall₂.nil⟩
  | cons s rest ih =>
    unfold New.loop at h
    split at h
    · cases h
    · rename_i ip n hs
      obtain ⟨h1, ns, h2, h3⟩ := ih h
      refine ⟨h1, n :: ns, by simp [h2], List.Forall₂.cons ⟨ip, hs⟩ h3⟩

theorem New_loop_of_all {ri : RealIP} {nets : List (List Char)}
    (h : ∀ s ∈ nets, ∃ p, net.ParseCIDR s = .ok p) : ∃ ri1, New.loop ri nets = .ok ri1 := by
  induction nets generalizing ri with
  | nil => exact ⟨ri, rfl⟩
  | cons s rest ih =>
    obtain ⟨⟨ip, n⟩, hp⟩ := h s (by simp)
    unfold New.loop
    rw [hp]
    exact ih (fun t ht => h t (by simp [ht]))

theorem New_ok {headers nets : List (List Char)} {ri : RealIP}
    (h : New headers nets = .ok ri) :
    ri.headers = headers ∧
      List.Forall₂ (fun s n => ∃ ip, net.ParseCIDR s = .ok (ip, n)) nets ri.allowed := by
  obtain ⟨h1, ns, h2, h3⟩ := New_loop_ok h
  refine ⟨h1, ?_⟩
  simp only [List.nil_append] at h2
  rw [h2]; exact h3

theorem parseIP_loop_eq_find (segs : List (List Char)) :
    parseIP.loop segs =
      ((segs.map strings.TrimSpace).find? (fun t => (net.ParseIP t).isSome)).getD [] := by
  induction segs with
  | nil => rfl
  | cons t rest ih =>
    unfold parseIP.loop
    by_cases h : (net.ParseIP (strings.TrimSpace t)).isSome = true
    · simp [h]
    · simp [h, ih]

theorem parseIP_loop_skip {pre post : List (List Char)} {t : List Char}
    (hpre : ∀ x ∈ pre, net.ParseIP (strings.TrimSpace x) = none)
    (ht : (net.ParseIP (strings.TrimSpace t)).isSome = true) :
    parseIP.loop (pre ++ t :: post) = strings.TrimSpace t := by
  induction pre with
  | nil => simp [parseIP.loop, ht]
  | cons x rest ih =>
    have hx := hpre x (by simp)
    simp only [List.cons_append, parseIP.loop, hx, Option.isSome_none, Bool.false_eq_true,
      if_false]
    exact ih (fun y hy => hpre y (by simp [hy]))

theorem parseIP_loop_none {segs : List (List Char)}
    (h : ∀ t ∈ segs, net.ParseIP (strings.TrimSpace t) = none) : parseIP.loop segs = [] := by
  induction segs with
  | nil => rfl
  | cons x rest ih =>
    have hx := h x (by simp)
    simp only [parseIP.loop, hx, Option.isSome_none, Bool.false_eq_true, if_false]
    exact ih (fun y hy => h y (by simp [hy]))

/-- The result of `parseIP`, when it is not empty, is an IP literal. -/
theorem parseIP_loop_valid {segs : List (List Char)} (h : parseIP.loop segs ≠ []) :
    (net.ParseIP (parseIP.loop segs)).isSome = true := by
  induction segs with
  | nil => exact absurd rfl h
  | cons x rest ih =>
    unfold parseIP.loop at h ⊢
    dsimp only at h ⊢
    split
    · rename_i hx; exact hx
    · rename_i hx
      rw [if_neg hx] at h
      exact ih h

theorem parseIP_of_valid {v : List Char} (hv : (net.ParseIP v).isSome = true) :
    parseIP v = v := by
  obtain ⟨ip, hip⟩ := Option.isSome_iff_exists.mp hv
  obtain ⟨-, hb⟩ := net.ParseIP_bytes hip
  have hcomma : ',' ∉ v := fun hm => netip.addrByte_ne (hb _ hm) (by decide) rfl
  have htrim : strings.TrimSpace v = v :=
    strings.TrimSpace_eq_self (fun c hc => netip.addrByte_not_space (hb c hc))
  unfold parseIP
  rw [strings.Split_of_not_mem hcomma]
  simp [parseIP.loop, htrim, hv]

theorem getHeader_loop_skip {r : Request} {pre post : List (List Char)}
    {name : List Char} (hpre : ∀ h ∈ pre, r.Header.Get h = [])
    (hname : r.Header.Get name ≠ []) :
    RealIP.getHeader.loop r (pre ++ name :: post) = r.Header.Get name := by
  induction pre with
  | nil => simp [RealIP.getHeader.loop, hname]
  | cons x rest ih =>
    have hx := hpre x (by simp)
    simp only [List.cons_append, RealIP.getHeader.loop, hx, ne_eq, not_true_eq_false, if_false]
    exact ih (fun y hy => hpre y (by simp [hy]))

theorem getHeader_loop_none {r : Request} {names : List (List Char)}
    (h : ∀ name ∈ names, r.Header.Get name = []) : RealIP.getHeader.loop r names = [] := by
  induction names with
  | nil => rfl
  | cons x rest ih =>
    have hx := h x (by simp)
    simp only [RealIP.getHeader.loop, hx, ne_eq, not_true_eq_false, if_false]
    exact ih (fun y hy => h y (by simp [hy]))

theorem getRemoteAddress_ok {r : Request} {host port : List Char} {ip : net.IP}
    (hsplit : net.SplitHostPort r.RemoteAddr = .ok (host, port))
    (hip : net.ParseIP host = some ip) : getRemoteAddress r = .ok (ip, port) := by
  simp [getRemoteAddress, hsplit, hip]

theorem getRemoteAddress_inv {r : Request} {port : List Char} {ip : net.IP}
    (h : getRemoteAddress r = .ok (ip, port)) :
    ∃ host, net.SplitHostPort r.RemoteAddr = .ok (host, port) ∧ net.ParseIP host = some ip := by
  unfold getRemoteAddress at h
  split at h
  · cases h
  · rename_i address port1 hs
    split at h
    · cases h
    · rename_i ip1 hp
      simp only [Except.ok.injEq, Prod.mk.injEq] at h
      obtain ⟨rfl, rfl⟩ := h
      exact ⟨address, hs, hp⟩

theorem Handler_loop_trusted {ri : RealIP} {ip : net.IP} {port : List Char}
    {r : Request} {l : List net.IPNet} (h : ∃ n ∈ l, n.Contains ip = true) :
    RealIP.Handler.loop ri ip port r l =
      if ri.getRealIPValue r ≠ [] then
        { r with RemoteAddr := net.JoinHostPort (ri.getRealIPValue r) port }
      else r := by
  induction l with
  | nil => simp at h
  | cons n rest ih =>
    unfold RealIP.Handler.loop
    by_cases hn : n.Contains ip = true
    · simp [hn]
    · rw [if_neg hn]
      apply ih
      obtain ⟨m, hm, hc⟩ := h
      rcases List.mem_cons.mp hm with rfl | hm
      · exact absurd hc hn
      · exact ⟨m, hm, hc⟩

theorem Handler_loop_untrusted {ri : RealIP} {ip : net.IP} {port : List Char}
    {r : Request} {l : List net.IPNet} (h : ∀ n ∈ l, n.Contains ip = false) :
    RealIP.Handler.loop ri ip port r l = r := by
  induction l with
  | nil => rfl
  | cons n rest ih =>
    unfold RealIP.Handler.loop
    have hn := h n (by simp)
    simp only [hn, Bool.false_eq_true, if_false]
    exact ih (fun m hm => h m (by simp [hm]))

theorem Handler_ok {ri : RealIP} {r : Request} {port : List Char} {ip : net.IP}
    (hr : getRemoteAddress r = .ok (ip, port)) (h : http.Handler) (w : ResponseWriter) :
    ri.Handler h w r = h w (RealIP.Handler.loop ri ip port r ri.allowed) := by
  simp [RealIP.Handler, hr]

/-! ## The claims -/

/-- C1: for a RealIP built by `New` and a request whose `RemoteAddr` splits
into an IP literal inside a configured range and a port, if the first
configured header with a non-empty value holds one well-formed IP literal `v`,
the wrapped handler hands the request to the downstream handler with a
`RemoteAddr` whose host part is `v` and whose port part is the original
port. -/
theorem Handler_substitutes_header_IP
    (headers nets : List (List Char)) (ri : RealIP) (r : Request)
    (host port v : List Char) (ip : net.IP)
    (pre post : List (List Char)) (name : List Char)
    (hnew : New headers nets = .ok ri)
    (hsplit : net.SplitHostPort r.RemoteAddr = .ok (host, port))
    (hip : net.ParseIP host = some ip)
    (htrust : ∃ n ∈ ri.allowed, n.Contains ip = true)
    (hhdrs : headers = pre ++ name :: post)
    (hpre : ∀ h ∈ pre, r.Header.Get h = [])
    (hval : r.Header.Get name = v)
    (hv : (net.ParseIP v).isSome = true) :
    ∃ addr, net.SplitHostPort addr = .ok (v, port) ∧
      ∀ (h : http.Handler) (w : ResponseWriter),
        ri.Handler h w r = h w { r with RemoteAddr := addr } := by
  obtain ⟨ipv, hipv⟩ := Option.isSome_iff_exists.mp hv
  obtain ⟨hne, hb⟩ := net.ParseIP_bytes hipv
  obtain ⟨hp0, hp1, hp2⟩ := net.SplitHostPort_port hsplit
  have hv1 : '[' ∉ v := fun hm => netip.addrByte_ne (hb _ hm) (by decide) rfl
  have hv2 : ']' ∉ v := fun hm => netip.addrByte_ne (hb _ hm) (by decide) rfl
  have hheader : ri.getHeader r = v := by
    unfold RealIP.getHeader
    rw [(New_ok hnew).1, hhdrs, getHeader_loop_skip hpre (by rw [hval]; exact hne), hval]
  have hvalue : ri.getRealIPValue r = v := by
    unfold RealIP.getRealIPValue
    simp only [hheader, if_neg hne]
    exact parseIP_of_valid hv
  refine ⟨net.JoinHostPort v port, net.SplitHostPort_JoinHostPort hv1 hv2 hp0 hp1 hp2, ?_⟩
  intro h w
  rw [Handler_ok (getRemoteAddress_ok hsplit hip), Handler_loop_trusted htrust,
    hvalue, if_pos hne]

/-- C2: when the peer IP of a request is valid and lies outside every
configured range (as it does when there is no range at all), the wrapped
handler hands the request to the downstream handler unchanged, whatever the
headers hold. -/
theorem Handler_untrusted_unchanged
    (ri : RealIP) (r : Request) (host port : List Char) (ip : net.IP)
    (hsplit : net.SplitHostPort r.RemoteAddr = .ok (host, port))
    (hip : net.ParseIP host = some ip)
    (hout : ∀ n ∈ ri.allowed, n.Contains ip = false) :
    ∀ (h : http.Handler) (w : ResponseWriter), ri.Handler h w r = h w r := by
  intro h w
  rw [Handler_ok (getRemoteAddress_ok hsplit hip), Handler_loop_untrusted hout]

/-- C3: the wrapped handler rejects a request exactly when its `RemoteAddr`
cannot be split into host and port or the host part is not an IP literal: it
then replies through `http.Error` with the text "invalid remote address" and
status 400, whatever the downstream handler is (which is therefore not called),
and leaves the request as it was; for every other request the wrapper writes
nothing itself and the outcome is that of the downstream handler. -/
theorem Handler_rejects_iff_invalidRemoteAddr (ri : RealIP) (r : Request) :
    (invalidRemoteAddr r ↔
      ∀ (h : http.Handler) (w : ResponseWriter),
        ri.Handler h w r = (http.Error w "invalid remote address".toList 400, r)) ∧
    (¬ invalidRemoteAddr r →
      ∃ r1, r1.Header = r.Header ∧
        ∀ (h : http.Handler) (w : ResponseWriter), ri.Handler h w r = h w r1) := by
  cases hs : net.SplitHostPort r.RemoteAddr with
  | error err =>
    have hinv : invalidRemoteAddr r := Or.inl (fun host port he => by rw [hs] at he; cases he)
    have hrej : ∀ (h : http.Handler) (w : ResponseWriter),
        ri.Handler h w r = (http.Error w "invalid remote address".toList 400, r) := by
      intro h w; simp [RealIP.Handler, getRemoteAddress, hs]
    exact ⟨⟨fun _ => hrej, fun _ => hinv⟩, fun hn => absurd hinv hn⟩
  | ok hp =>
    obtain ⟨host, port⟩ := hp
    cases hp : net.ParseIP host with
    | none =>
      have hinv : invalidRemoteAddr r := Or.inr ⟨host, port, hs, hp⟩
      have hrej : ∀ (h : http.Handler) (w : ResponseWriter),
          ri.Handler h w r = (http.Error w "invalid remote address".toList 400, r) := by
        intro h w; simp [RealIP.Handler, getRemoteAddress, hs, hp]
      exact ⟨⟨fun _ => hrej, fun _ => hinv⟩, fun hn => absurd hinv hn⟩
    | some ip =>
      have hok := getRemoteAddress_ok hs hp
      have hvalid : ¬ invalidRemoteAddr r := by
        rintro (h1 | ⟨host1, port1, h1, h2⟩)
        · exact h1 host port hs
        · rw [hs] at h1
          simp only [Except.ok.injEq, Prod.mk.injEq] at h1
          rw [← h1.1, hp] at h2
          cases h2
      have hhdr : (RealIP.Handler.loop ri ip port r ri.allowed).Header = r.Header := by
        by_cases ht : ∃ n ∈ ri.allowed, n.Contains ip = true
        · rw [Handler_loop_trusted ht]
          split <;> rfl
        · rw [Handler_loop_untrusted (fun n hn => by
            cases hc : n.Contains ip
            · rfl
            · exact absurd ⟨n, hn, hc⟩ ht)]
      refine ⟨⟨fun hi => absurd hi hvalid, fun hrej => ?_⟩, fun _ =>
        ⟨_, hhdr, fun h w => Handler_ok hok h w⟩⟩
      have h1 := hrej (fun w r => (w, r)) []
      rw [Handler_ok hok] at h1
      simp [http.Error] at h1

/-- C4: `New(headers, nets)` succeeds if and only if every string of `nets`
parses as a CIDR; on success the instance holds as many ranges as `nets` has
strings, the i-th range being the network that `net.ParseCIDR` gives for the
i-th string; and if some string is malformed `New` returns an error, and with
it no instance. -/
theorem New_succeeds_iff_all_CIDR (headers nets : List (List Char)) :
    ((∃ ri, New headers nets = .ok ri) ↔ ∀ s ∈ nets, ∃ p, net.ParseCIDR s = .ok p) ∧
    (∀ ri, New headers nets = .ok ri →
      ri.allowed.length = nets.length ∧
        ∀ (i : Nat) (s : List Char), nets[i]? = some s →
          ∃ ip n, net.ParseCIDR s = .ok (ip, n) ∧ ri.allowed[i]? = some n) ∧
    ((∃ s ∈ nets, ∀ p, net.ParseCIDR s ≠ .ok p) → ∃ err, New headers nets = .error err) := by
  have hfwd : ∀ ri, New headers nets = .ok ri → ∀ s ∈ nets, ∃ p, net.ParseCIDR s = .ok p := by
    intro ri hri s hs
    have hf := (New_ok hri).2
    obtain ⟨i, hi, rfl⟩ := List.getElem_of_mem hs
    have hi2 : i < ri.allowed.length := hf.length_eq ▸ hi
    obtain ⟨ip, hp⟩ := List.Forall₂.get hf hi hi2
    exact ⟨_, hp⟩
  refine ⟨⟨fun ⟨ri, hri⟩ => hfwd ri hri, fun hall => New_loop_of_all hall⟩, ?_, ?_⟩
  · intro ri hri
    have hf := (New_ok hri).2
    refine ⟨hf.length_eq.symm, ?_⟩
    intro i s his
    obtain ⟨hi, rfl⟩ := List.getElem?_eq_some_iff.mp his
    have hi2 : i < ri.allowed.length := hf.length_eq ▸ hi
    obtain ⟨ip, hp⟩ := List.Forall₂.get hf hi hi2
    exact ⟨ip, _, hp, List.getElem?_eq_getElem hi2⟩
  · rintro ⟨s, hs, hbad⟩
    cases hn : New headers nets with
    | error err => exact ⟨err, rfl⟩
    | ok ri =>
      obtain ⟨p, hp⟩ := hfwd ri hn s hs
      exact absurd hp (hbad p)

/-- C5: for a request from a trusted peer, when no configured header has a
non-empty value (as when no header is configured), or when no comma-separated
part of the selected header value is an IP literal, the wrapped handler hands
the request to the downstream handler unchanged and writes no error. -/
theorem Handler_no_candidate_unchanged
    (ri : RealIP) (r : Request) (host port : List Char) (ip : net.IP)
    (hsplit : net.SplitHostPort r.RemoteAddr = .ok (host, port))
    (hip : net.ParseIP host = some ip)
    (htrust : ∃ n ∈ ri.allowed, n.Contains ip = true)
    (hnone : (∀ name ∈ ri.headers, r.Header.Get name = []) ∨
      (∀ t ∈ strings.Split (ri.getHeader r) ',', net.ParseIP (strings.TrimSpace t) = none)) :
    ∀ (h : http.Handler) (w : ResponseWriter), ri.Handler h w r = h w r := by
  intro h w
  have hvalue : ri.getRealIPValue r = [] := by
    unfold RealIP.getRealIPValue
    dsimp only
    split
    · rfl
    · rcases hnone with hn | hn
      · rename_i hne
        exact absurd (getHeader_loop_none hn) hne
      · exact parseIP_loop_none hn
  rw [Handler_ok (getRemoteAddress_ok hsplit hip), Handler_loop_trusted htrust,
    hvalue]
  simp

/-- C6: `parseIP(s)` is the first of the white-space-trimmed comma-separated
parts of `s` that is an IP literal, and the empty string when no part is one;
so for `s = "A, B, C"` with `A` an IP literal the result is `A` whatever `B`
and `C` are, and parts that are no IP literal are skipped up to the first part
that is one. -/
theorem parseIP_first_valid_token :
    (∀ s, parseIP s = firstValidToken s) ∧
    (∀ A B C, (net.ParseIP A).isSome = true →
      parseIP (A ++ ", ".toList ++ B ++ ", ".toList ++ C) = A) ∧
    (∀ s pre t post, strings.Split s ',' = pre ++ t :: post →
      (∀ x ∈ pre, net.ParseIP (strings.TrimSpace x) = none) →
      (net.ParseIP (strings.TrimSpace t)).isSome = true →
      parseIP s = strings.TrimSpace t) ∧
    (∀ s, (∀ t ∈ strings.Split s ',', net.ParseIP (strings.TrimSpace t) = none) →
      parseIP s = []) := by
  refine ⟨fun s => parseIP_loop_eq_find _, ?_, ?_, ?_⟩
  · intro A B C hA
    obtain ⟨ip, hip⟩ := Option.isSome_iff_exists.mp hA
    obtain ⟨-, hb⟩ := net.ParseIP_bytes hip
    have hcomma : ',' ∉ A := fun hm => netip.addrByte_ne (hb _ hm) (by decide) rfl
    have htrim : strings.TrimSpace A = A :=
      strings.TrimSpace_eq_self (fun c hc => netip.addrByte_not_space (hb c hc))
    have e : A ++ ", ".toList ++ B ++ ", ".toList ++ C
        = A ++ ',' :: (' ' :: (B ++ ", ".toList ++ C)) := by simp
    unfold parseIP
    rw [e, strings.Split_append_sep hcomma]
    simp [parseIP.loop, htrim, hA]
  · intro s pre t post hs hpre ht
    unfold parseIP
    rw [hs]
    exact parseIP_loop_skip hpre ht
  · intro s hs
    exact parseIP_loop_none hs

/-- C7: `getHeader` returns the value of the earliest configured name whose
header has a non-empty value, skipping the names whose header is absent or
empty, and returns the empty string when no configured name has a non-empty
value. -/
theorem getHeader_earliest_nonempty (ri : RealIP) (r : Request) :
    (∀ pre name post, ri.headers = pre ++ name :: post →
      (∀ h ∈ pre, r.Header.Get h = []) → r.Header.Get name ≠ [] →
      ri.getHeader r = r.Header.Get name) ∧
    ((∀ name ∈ ri.headers, r.Header.Get name = []) → ri.getHeader r = []) := by
  constructor
  · intro pre name post hh hpre hname
    unfold RealIP.getHeader
    rw [hh]
    exact getHeader_loop_skip hpre hname
  · intro hall
    exact getHeader_loop_none hall

/-- C8: for a request whose `RemoteAddr` splits into an IP literal and a port,
the outcome of the wrapped handler is that of one call of the downstream
handler, made on the request as the substitution step left it (the request
itself, or the request with `RemoteAddr` replaced by the join of the header IP
and the port): this holds for every downstream handler, every set of ranges
and every header; a downstream handler that writes one status line leaves
exactly one such line on the response. -/
theorem Handler_serves_once
    (ri : RealIP) (r : Request) (host port : List Char) (ip : net.IP)
    (hsplit : net.SplitHostPort r.RemoteAddr = .ok (host, port))
    (hip : net.ParseIP host = some ip) :
    ∃ r1, (r1 = r ∨
        r1 = { r with RemoteAddr := net.JoinHostPort (ri.getRealIPValue r) port }) ∧
      (∀ (h : http.Handler) (w : ResponseWriter), ri.Handler h w r = h w r1) ∧
      ∀ w : ResponseWriter,
        (ri.Handler (fun w1 r2 => (w1 ++ [http.Call.WriteHeader 200], r2)) w r).1 =
          w ++ [http.Call.WriteHeader 200] := by
  refine ⟨RealIP.Handler.loop ri ip port r ri.allowed, ?_,
    fun h w => Handler_ok (getRemoteAddress_ok hsplit hip) h w,
    fun w => by rw [Handler_ok (getRemoteAddress_ok hsplit hip)]⟩
  by_cases ht : ∃ n ∈ ri.allowed, n.Contains ip = true
  · rw [Handler_loop_trusted ht]
    split
    · exact Or.inr rfl
    · exact Or.inl rfl
  · left
    apply Handler_loop_untrusted
    intro n hn
    cases hc : n.Contains ip
    · rfl
    · exact absurd ⟨n, hn, hc⟩ ht

/-- C9: for a request that reaches the downstream handler, the `RemoteAddr`
that the downstream handler sees splits into an IP literal and the port of the
original `RemoteAddr`; a header token with a port, such as "1.2.3.4:5555", is
no IP literal and is never used. -/
theorem Handler_downstream_RemoteAddr_valid
    (ri : RealIP) (r : Request) (host port : List Char) (ip : net.IP)
    (hsplit : net.SplitHostPort r.RemoteAddr = .ok (host, port))
    (hip : net.ParseIP host = some ip) :
    (∃ r1, (∀ (h : http.Handler) (w : ResponseWriter), ri.Handler h w r = h w r1) ∧
      ∃ host1 ip1, net.SplitHostPort r1.RemoteAddr = .ok (host1, port) ∧
        net.ParseIP host1 = some ip1) ∧
    parseIP "1.2.3.4:5555".toList = [] := by
  refine ⟨⟨RealIP.Handler.loop ri ip port r ri.allowed,
    fun h w => Handler_ok (getRemoteAddress_ok hsplit hip) h w, ?_⟩, by decide⟩
  by_cases ht : ∃ n ∈ ri.allowed, n.Contains ip = true
  · rw [Handler_loop_trusted ht]
    split
    · rename_i hne
      have hvalid : (net.ParseIP (ri.getRealIPValue r)).isSome = true := by
        unfold RealIP.getRealIPValue at hne ⊢
        dsimp only at hne ⊢
        split
        · rename_i he; rw [if_pos he] at hne; exact absurd rfl hne
        · rename_i he; rw [if_neg he] at hne; exact parseIP_loop_valid hne
      obtain ⟨ipv, hipv⟩ := Option.isSome_iff_exists.mp hvalid
      obtain ⟨-, hb⟩ := net.ParseIP_bytes hipv
      obtain ⟨hp0, hp1, hp2⟩ := net.SplitHostPort_port hsplit
      exact ⟨_, ipv, net.SplitHostPort_JoinHostPort
        (fun hm => netip.addrByte_ne (hb _ hm) (by decide) rfl)
        (fun hm => netip.addrByte_ne (hb _ hm) (by decide) rfl) hp0 hp1 hp2, hipv⟩
    · exact ⟨host, ip, hsplit, hip⟩
  · rw [Handler_loop_untrusted (fun n hn => by
      cases hc : n.Contains ip
      · rfl
      · exact absurd ⟨n, hn, hc⟩ ht)]
    exact ⟨host, ip, hsplit, hip⟩

/-- C10: two lists of CIDR strings with the same entries, in any order and
with any multiplicity, give through `New`, with the same header names, wrapped
handlers with the same outcome on every request: the same `RemoteAddr` and the
same call of the downstream handler. -/
theorem Handler_ranges_order_irrelevant
    (headers nets1 nets2 : List (List Char)) (ri1 ri2 : RealIP)
    (h1 : New headers nets1 = .ok ri1) (h2 : New headers nets2 = .ok ri2)
    (hsame : ∀ s, s ∈ nets1 ↔ s ∈ nets2) :
    ∀ (h : http.Handler) (w : ResponseWriter) (r : Request),
      ri1.Handler h w r = ri2.Handler h w r := by
  intro h w r
  obtain ⟨hh1, hf1⟩ := New_ok h1
  obtain ⟨hh2, hf2⟩ := New_ok h2
  have hmem : ∀ {netsA netsB : List (List Char)} {a b : List net.IPNet},
      List.Forall₂ (fun s n => ∃ ip, net.ParseCIDR s = .ok (ip, n)) netsA a →
      List.Forall₂ (fun s n => ∃ ip, net.ParseCIDR s = .ok (ip, n)) netsB b →
      (∀ s, s ∈ netsA → s ∈ netsB) → ∀ n ∈ a, n ∈ b := by
    intro netsA netsB a b hfa hfb hsub n hn
    obtain ⟨i, hi, rfl⟩ := List.getElem_of_mem hn
    have hiA : i < netsA.length := hfa.length_eq ▸ hi
    obtain ⟨ip, hp⟩ := List.Forall₂.get hfa hiA hi
    have hsB := hsub _ (List.getElem_mem hiA)
    obtain ⟨j, hj, hje⟩ := List.getElem_of_mem hsB
    have hjb : j < b.length := hfb.length_eq ▸ hj
    obtain ⟨ip2, hp2⟩ := List.Forall₂.get hfb hj hjb
    simp only [List.get_eq_getElem] at hp hp2
    rw [hje, hp] at hp2
    simp only [Except.ok.injEq, Prod.mk.injEq] at hp2
    rw [hp2.2]
    exact List.getElem_mem hjb
  have hval : ri1.getRealIPValue r = ri2.getRealIPValue r := by
    simp [RealIP.getRealIPValue, RealIP.getHeader, hh1, hh2]
  cases hr : getRemoteAddress r with
  | error err => simp [RealIP.Handler, hr]
  | ok p =>
    obtain ⟨ip, port⟩ := p
    rw [Handler_ok hr, Handler_ok hr]
    congr 1
    by_cases ht : ∃ n ∈ ri1.allowed, n.Contains ip = true
    · have ht2 : ∃ n ∈ ri2.allowed, n.Contains ip = true := by
        obtain ⟨n, hn, hc⟩ := ht
        exact ⟨n, hmem hf1 hf2 (fun s hs => (hsame s).mp hs) n hn, hc⟩
      rw [Handler_loop_trusted ht, Handler_loop_trusted ht2, hval]
    · have ht2 : ¬ ∃ n ∈ ri2.allowed, n.Contains ip = true := by
        rintro ⟨n, hn, hc⟩
        exact ht ⟨n, hmem hf2 hf1 (fun s hs => (hsame s).mpr hs) n hn, hc⟩
      rw [Handler_loop_untrusted (fun n hn => by
          cases hc : n.Contains ip
          · rfl
          · exact absurd ⟨n, hn, hc⟩ ht),
        Handler_loop_untrusted (fun n hn => by
          cases hc : n.Contains ip
          · rfl
          · exact absurd ⟨n, hn, hc⟩ ht2)]

/-! ## The claims at concrete requests, and the tests of `realip_test.go` -/

/-- C1 at the request of `TestHandlerPass`. -/
theorem Handler_substitutes_header_IP_witness :
    New ["X-Forwarded-For".toList] ["8.8.0.0/16".toList] = .ok realip_test.ri ∧
    ∃ addr, net.SplitHostPort addr = .ok ("64.63.62.61".toList, "9876".toList) ∧
      ∀ (h : http.Handler) (w : ResponseWriter),
        realip_test.ri.Handler h w
            (realip_test.newRequest "8.8.8.8:9876".toList "64.63.62.61".toList) =
          h w { realip_test.newRequest "8.8.8.8:9876".toList "64.63.62.61".toList with
            RemoteAddr := addr } :=
  ⟨rfl, Handler_substitutes_header_IP ["X-Forwarded-For".toList] ["8.8.0.0/16".toList]
    realip_test.ri (realip_test.newRequest "8.8.8.8:9876".toList "64.63.62.61".toList)
    "8.8.8.8".toList "9876".toList "64.63.62.61".toList
    [0, 0, 0, 0, 0, 0, 0, 0, 0, 0, 255, 255, 8, 8, 8, 8] [] [] "X-Forwarded-For".toList
    rfl rfl rfl ⟨_, List.mem_singleton.mpr rfl, rfl⟩ rfl (by simp) rfl rfl⟩

/-- C2 at the request of `TestHandlerFail`. -/
theorem Handler_untrusted_unchanged_witness :
    (∀ n ∈ realip_test.ri.allowed,
      n.Contains [0, 0, 0, 0, 0, 0, 0, 0, 0, 0, 255, 255, 9, 8, 8, 8] = false) ∧
    ∀ (h : http.Handler) (w : ResponseWriter),
      realip_test.ri.Handler h w
          (realip_test.newRequest "9.8.8.8:9876".toList "64.63.62.61".toList) =
        h w (realip_test.newRequest "9.8.8.8:9876".toList "64.63.62.61".toList) :=
  ⟨by decide, Handler_untrusted_unchanged realip_test.ri
    (realip_test.newRequest "9.8.8.8:9876".toList "64.63.62.61".toList)
    "9.8.8.8".toList "9876".toList [0, 0, 0, 0, 0, 0, 0, 0, 0, 0, 255, 255, 9, 8, 8, 8]
    rfl rfl (by decide)⟩

/-- C5 at a request from a trusted peer whose header is "not-an-ip". -/
theorem Handler_no_candidate_unchanged_witness :
    (∃ n ∈ realip_test.ri.allowed,
      n.Contains [0, 0, 0, 0, 0, 0, 0, 0, 0, 0, 255, 255, 8, 8, 8, 8] = true) ∧
    ∀ (h : http.Handler) (w : ResponseWriter),
      realip_test.ri.Handler h w
          (realip_test.newRequest "8.8.8.8:9876".toList "not-an-ip".toList) =
        h w (realip_test.newRequest "8.8.8.8:9876".toList "not-an-ip".toList) :=
  ⟨⟨_, List.mem_singleton.mpr rfl, rfl⟩, Handler_no_candidate_unchanged realip_test.ri
    (realip_test.newRequest "8.8.8.8:9876".toList "not-an-ip".toList)
    "8.8.8.8".toList "9876".toList [0, 0, 0, 0, 0, 0, 0, 0, 0, 0, 255, 255, 8, 8, 8, 8]
    rfl rfl ⟨_, List.mem_singleton.mpr rfl, rfl⟩ (Or.inr (by decide))⟩

/-- C8 at the request of `TestHandlerPass`. -/
theorem Handler_serves_once_witness :
    net.SplitHostPort "8.8.8.8:9876".toList = .ok ("8.8.8.8".toList, "9876".toList) ∧
    ∃ r1, (r1 = realip_test.newRequest "8.8.8.8:9876".toList "64.63.62.61".toList ∨
        r1 = { realip_test.newRequest "8.8.8.8:9876".toList "64.63.62.61".toList with
          RemoteAddr := net.JoinHostPort (realip_test.ri.getRealIPValue
            (realip_test.newRequest "8.8.8.8:9876".toList "64.63.62.61".toList))
            "9876".toList }) ∧
      (∀ (h : http.Handler) (w : ResponseWriter),
        realip_test.ri.Handler h w
          (realip_test.newRequest "8.8.8.8:9876".toList "64.63.62.61".toList) = h w r1) ∧
      ∀ w : ResponseWriter,
        (realip_test.ri.Handler (fun w1 r2 => (w1 ++ [http.Call.WriteHeader 200], r2)) w
          (realip_test.newRequest "8.8.8.8:9876".toList "64.63.62.61".toList)).1 =
          w ++ [http.Call.WriteHeader 200] :=
  ⟨rfl, Handler_serves_once realip_test.ri
    (realip_test.newRequest "8.8.8.8:9876".toList "64.63.62.61".toList)
    "8.8.8.8".toList "9876".toList [0, 0, 0, 0, 0, 0, 0, 0, 0, 0, 255, 255, 8, 8, 8, 8]
    rfl rfl⟩

/-- C9 at a request from a trusted peer whose header lists a token with a
port before an IPv6 literal. -/
theorem Handler_downstream_RemoteAddr_valid_witness :
    net.ParseIP "8.8.8.8".toList = some [0, 0, 0, 0, 0, 0, 0, 0, 0, 0, 255, 255, 8, 8, 8, 8] ∧
    ((∃ r1, (∀ (h : http.Handler) (w : ResponseWriter),
        realip_test.ri.Handler h w
          (realip_test.newRequest "8.8.8.8:9876".toList "1.2.3.4:5555, 2001:db8::1".toList)
          = h w r1) ∧
      ∃ host1 ip1, net.SplitHostPort r1.RemoteAddr = .ok (host1, "9876".toList) ∧
        net.ParseIP host1 = some ip1) ∧
    parseIP "1.2.3.4:5555".toList = []) :=
  ⟨rfl, Handler_downstream_RemoteAddr_valid realip_test.ri
    (realip_test.newRequest "8.8.8.8:9876".toList "1.2.3.4:5555, 2001:db8::1".toList)
    "8.8.8.8".toList "9876".toList [0, 0, 0, 0, 0, 0, 0, 0, 0, 0, 255, 255, 8, 8, 8, 8]
    rfl rfl⟩

/-- C10 at the two ranges of `ExampleNew`, swapped and with one of them
repeated. -/
theorem Handler_ranges_order_irrelevant_witness :
    New ["X-Forwarded-For".toList] ["8.8.0.0/16".toList, "127.0.0.0/8".toList] =
      .ok ⟨[⟨[8, 8, 0, 0], [255, 255, 0, 0]⟩, ⟨[127, 0, 0, 0], [255, 0, 0, 0]⟩],
        ["X-Forwarded-For".toList]⟩ ∧
    New ["X-Forwarded-For".toList]
        ["127.0.0.0/8".toList, "8.8.0.0/16".toList, "8.8.0.0/16".toList] =
      .ok ⟨[⟨[127, 0, 0, 0], [255, 0, 0, 0]⟩, ⟨[8, 8, 0, 0], [255, 255, 0, 0]⟩,
        ⟨[8, 8, 0, 0], [255, 255, 0, 0]⟩], ["X-Forwarded-For".toList]⟩ ∧
    ∀ (h : http.Handler) (w : ResponseWriter) (r : Request),
      RealIP.Handler ⟨[⟨[8, 8, 0, 0], [255, 255, 0, 0]⟩, ⟨[127, 0, 0, 0], [255, 0, 0, 0]⟩],
          ["X-Forwarded-For".toList]⟩ h w r =
        RealIP.Handler ⟨[⟨[127, 0, 0, 0], [255, 0, 0, 0]⟩, ⟨[8, 8, 0, 0], [255, 255, 0, 0]⟩,
          ⟨[8, 8, 0, 0], [255, 255, 0, 0]⟩], ["X-Forwarded-For".toList]⟩ h w r :=
  ⟨rfl, rfl, Handler_ranges_order_irrelevant ["X-Forwarded-For".toList]
    ["8.8.0.0/16".toList, "127.0.0.0/8".toList]
    ["127.0.0.0/8".toList, "8.8.0.0/16".toList, "8.8.0.0/16".toList] _ _ rfl rfl
    (by intro s; simp only [List.mem_cons, List.mem_singleton, List.not_mem_nil]; tauto)⟩

/-- `TestNew`: `New` succeeds on the range 127.0.0.0/8. -/
theorem TestNew :
    New ["X-Forwarded-For".toList] ["127.0.0.0/8".toList] =
      .ok ⟨[⟨[127, 0, 0, 0], [255, 0, 0, 0]⟩], ["X-Forwarded-For".toList]⟩ := rfl

/-- `TestNewFail`: `New` fails on the malformed range 0.0/8. -/
theorem TestNewFail :
    New ["X-Forwarded-For".toList] ["0.0/8".toList] =
      .error (error.ParseError "CIDR address" "0.0/8".toList) := rfl

/-- `TestHandlerPass`: the trusted peer 8.8.8.8:9876 with the header
64.63.62.61 is served with status 200 and leaves 64.63.62.61:9876. -/
theorem TestHandlerPass :
    realip_test.ri.Handler realip_test.handler []
        (realip_test.newRequest "8.8.8.8:9876".toList "64.63.62.61".toList) =
      ([http.Call.WriteHeader 200, http.Call.Write "Hello World\n".toList],
        realip_test.newRequest "64.63.62.61:9876".toList "64.63.62.61".toList) := by
  decide

/-- `TestHandlerFail`: the peer 9.8.8.8:9876, outside the range, is served
with status 200 and keeps its address. -/
theorem TestHandlerFail :
    realip_test.ri.Handler realip_test.handler []
        (realip_test.newRequest "9.8.8.8:9876".toList "64.63.62.61".toList) =
      ([http.Call.WriteHeader 200, http.Call.Write "Hello World\n".toList],
        realip_test.newRequest "9.8.8.8:9876".toList "64.63.62.61".toList) := by
  decide

end realip

/-! ## Lemmas for the error of `New` and for the selected token -/

namespace net

theorem ParseCIDR_error {s : List Char} {e : error} (h : ParseCIDR s = .error e) :
    e = error.ParseError "CIDR address" s := by
  unfold ParseCIDR at h
  split at h
  · simp only [Except.error.injEq] at h; exact h.symm
  · dsimp only at h
    split at h
    · simp only [Except.error.injEq] at h; exact h.symm
    · split at h
      · simp only [Except.error.injEq] at h; exact h.symm
      · split at h
        · simp only [Except.error.injEq] at h; exact h.symm
        · cases h

end net

namespace realip

open http (Request ResponseWriter)

theorem New_loop_first_error {ri : RealIP} {pre post : List (List Char)} {bad : List Char}
    {e : error} (hpre : ∀ s ∈ pre, ∃ p, net.ParseCIDR s = .ok p)
    (hbad : net.ParseCIDR bad = .error e) :
    New.loop ri (pre ++ bad :: post) = .error e := by
  induction pre generalizing ri with
  | nil => simp [New.loop, hbad]
  | cons s rest ih =>
    obtain ⟨⟨ip, n⟩, hp⟩ := hpre s (by simp)
    simp only [List.cons_append, New.loop, hp]
    exact ih (fun t ht => hpre t (by simp [ht]))

theorem getRealIPValue_congr {ri : RealIP} {r1 r2 : Request} (h : r1.Header = r2.Header) :
    ri.getRealIPValue r1 = ri.getRealIPValue r2 := by
  have hl : ∀ l, RealIP.getHeader.loop r1 l = RealIP.getHeader.loop r2 l := by
    intro l
    induction l with
    | nil => rfl
    | cons x rest ih => simp only [RealIP.getHeader.loop, h, ih]
  simp only [RealIP.getRealIPValue, RealIP.getHeader, hl]

theorem getRealIPValue_valid {ri : RealIP} {r : Request} (hne : ri.getRealIPValue r ≠ []) :
    (net.ParseIP (ri.getRealIPValue r)).isSome = true ∧
      ∃ seg ∈ strings.Split (ri.getHeader r) ',',
        ri.getRealIPValue r = strings.TrimSpace seg := by
  have hmem : ∀ segs : List (List Char), parseIP.loop segs ≠ [] →
      ∃ seg ∈ segs, parseIP.loop segs = strings.TrimSpace seg := by
    intro segs
    induction segs with
    | nil => intro h; exact absurd rfl h
    | cons x rest ih =>
      intro h
      unfold parseIP.loop at h ⊢
      dsimp only at h ⊢
      split
      · exact ⟨x, by simp, rfl⟩
      · rename_i hx
        rw [if_neg hx] at h
        obtain ⟨seg, hs, he⟩ := ih h
        exact ⟨seg, by simp [hs], he⟩
  unfold RealIP.getRealIPValue at hne ⊢
  dsimp only at hne ⊢
  split
  · rename_i he; rw [if_pos he] at hne; exact absurd rfl hne
  · rename_i he
    rw [if_neg he] at hne
    exact ⟨parseIP_loop_valid hne, hmem _ hne⟩

/-! ## The claims on the stored configuration, the error of `New` and the rewritten address -/

/-- C11: after a successful `New(headers, nets)` the header names stored in
the instance are the input list itself: the same length and the same name at
every position, so the order is kept, duplicates are kept and no name is
changed. -/
theorem New_keeps_headers (headers nets : List (List Char)) (ri : RealIP)
    (hnew : New headers nets = .ok ri) :
    ri.headers = headers ∧ ri.headers.length = headers.length ∧
      ∀ i : Nat, ri.headers[i]? = headers[i]? := by
  have h := (New_ok hnew).1
  exact ⟨h, by rw [h], fun i => by rw [h]⟩

/-- C11 at a header list with a repeated name and a name in lower case. -/
theorem New_keeps_headers_witness :
    New ["X-Forwarded-For".toList, "x-real-ip".toList, "X-Forwarded-For".toList]
        ["8.8.0.0/16".toList] =
      .ok ⟨[⟨[8, 8, 0, 0], [255, 255, 0, 0]⟩],
        ["X-Forwarded-For".toList, "x-real-ip".toList, "X-Forwarded-For".toList]⟩ ∧
    ((⟨[⟨[8, 8, 0, 0], [255, 255, 0, 0]⟩],
        ["X-Forwarded-For".toList, "x-real-ip".toList, "X-Forwarded-For".toList]⟩ :
          RealIP).headers =
        ["X-Forwarded-For".toList, "x-real-ip".toList, "X-Forwarded-For".toList] ∧
      (⟨[⟨[8, 8, 0, 0], [255, 255, 0, 0]⟩],
        ["X-Forwarded-For".toList, "x-real-ip".toList, "X-Forwarded-For".toList]⟩ :
          RealIP).headers.length =
        ["X-Forwarded-For".toList, "x-real-ip".toList, "X-Forwarded-For".toList].length ∧
      ∀ i : Nat,
        (⟨[⟨[8, 8, 0, 0], [255, 255, 0, 0]⟩],
          ["X-Forwarded-For".toList, "x-real-ip".toList, "X-Forwarded-For".toList]⟩ :
            RealIP).headers[i]? =
          ["X-Forwarded-For".toList, "x-real-ip".toList, "X-Forwarded-For".toList][i]?) :=
  ⟨rfl, New_keeps_headers
    ["X-Forwarded-For".toList, "x-real-ip".toList, "X-Forwarded-For".toList]
    ["8.8.0.0/16".toList] _ rfl⟩

/-- C12, as stated, fails at the list of `TestNewFail`: the error of `New` is
the `net.ParseError` of `net.ParseCIDR`, whose text is
"invalid CIDR address: 0.0/8"; the text "invalid network" is not that text and
is no part of it. -/
theorem New_error_text_counterexample :
    New ["X-Forwarded-For".toList] ["0.0/8".toList] =
      .error (error.ParseError "CIDR address" "0.0/8".toList) ∧
    (error.ParseError "CIDR address" "0.0/8".toList).Error =
      "invalid CIDR address: 0.0/8".toList ∧
    (error.ParseError "CIDR address" "0.0/8".toList).Error ≠ "invalid network".toList ∧
    ¬ ("invalid network".toList <:+:
      (error.ParseError "CIDR address" "0.0/8".toList).Error) :=
  ⟨rfl, by decide, by decide, by decide⟩

/-- C12, amended: when the CIDR list has a malformed entry, `New` fails at the
first malformed entry in list order, whatever follows it, with the error that
`net.ParseCIDR` gives for that entry, a `net.ParseError` of type
"CIDR address" whose text is "invalid CIDR address: " followed by the entry;
the result is an error and so carries no instance. -/
theorem New_fails_at_first_malformed
    (headers pre post : List (List Char)) (bad : List Char)
    (hpre : ∀ s ∈ pre, ∃ p, net.ParseCIDR s = .ok p)
    (hbad : ∀ p, net.ParseCIDR bad ≠ .ok p) :
    New headers (pre ++ bad :: post) = .error (error.ParseError "CIDR address" bad) ∧
      (error.ParseError "CIDR address" bad).Error = "invalid CIDR address: ".toList ++ bad ∧
      ∀ ri, New headers (pre ++ bad :: post) ≠ .ok ri := by
  have hnew : New headers (pre ++ bad :: post) =
      .error (error.ParseError "CIDR address" bad) := by
    cases hb : net.ParseCIDR bad with
    | ok p => exact absurd hb (hbad p)
    | error e =>
      have he := net.ParseCIDR_error hb
      subst he
      exact New_loop_first_error hpre hb
  refine ⟨hnew, rfl, ?_⟩
  intro ri hri
  rw [hnew] at hri
  cases hri

/-- C12, amended, at a list whose second and third entries are malformed. -/
theorem New_fails_at_first_malformed_witness :
    (∀ p, net.ParseCIDR "0.0/8".toList ≠ .ok p) ∧
    (New ["X-Forwarded-For".toList]
        (["8.8.0.0/16".toList] ++ "0.0/8".toList :: ["1.2.3.4/33".toList]) =
      .error (error.ParseError "CIDR address" "0.0/8".toList) ∧
    (error.ParseError "CIDR address" "0.0/8".toList).Error =
      "invalid CIDR address: ".toList ++ "0.0/8".toList ∧
    ∀ ri, New ["X-Forwarded-For".toList]
        (["8.8.0.0/16".toList] ++ "0.0/8".toList :: ["1.2.3.4/33".toList]) ≠ .ok ri) :=
  ⟨(fun p hp => by
      rw [show net.ParseCIDR "0.0/8".toList =
        .error (error.ParseError "CIDR address" "0.0/8".toList) from rfl] at hp
      cases hp),
    New_fails_at_first_malformed ["X-Forwarded-For".toList]
      ["8.8.0.0/16".toList] ["1.2.3.4/33".toList] "0.0/8".toList
      (fun s hs => by
        rw [List.mem_singleton] at hs
        subst hs
        exact ⟨_, rfl⟩)
      (fun p hp => by
        rw [show net.ParseCIDR "0.0/8".toList =
          .error (error.ParseError "CIDR address" "0.0/8".toList) from rfl] at hp
        cases hp)⟩

/-- C13: only the first configured header with a non-empty value is
consulted: for a request from a trusted peer, when no comma-separated part of
the value of that header is an IP literal, the request goes to the downstream
handler unchanged, whatever the later configured headers hold. -/
theorem Handler_consults_first_header_only
    (ri : RealIP) (r : Request) (host port : List Char) (ip : net.IP)
    (pre post : List (List Char)) (name : List Char)
    (hsplit : net.SplitHostPort r.RemoteAddr = .ok (host, port))
    (hip : net.ParseIP host = some ip)
    (htrust : ∃ n ∈ ri.allowed, n.Contains ip = true)
    (hhdrs : ri.headers = pre ++ name :: post)
    (hpre : ∀ h ∈ pre, r.Header.Get h = [])
    (hname : r.Header.Get name ≠ [])
    (hnone : ∀ t ∈ strings.Split (r.Header.Get name) ',',
      net.ParseIP (strings.TrimSpace t) = none) :
    ∀ (h : http.Handler) (w : ResponseWriter), ri.Handler h w r = h w r := by
  intro h w
  have hheader : ri.getHeader r = r.Header.Get name := by
    unfold RealIP.getHeader
    rw [hhdrs]
    exact getHeader_loop_skip hpre hname
  have hvalue : ri.getRealIPValue r = [] := by
    unfold RealIP.getRealIPValue
    simp only [hheader, if_neg hname]
    exact parseIP_loop_none hnone
  rw [Handler_ok (getRemoteAddress_ok hsplit hip), Handler_loop_trusted htrust, hvalue]
  simp

/-- C13 at the headers X-Forwarded-For, X-Real-IP and a request with
X-Forwarded-For: unknown and X-Real-IP: 1.2.3.4. -/
theorem Handler_consults_first_header_only_witness :
    parseIP (http.Header.Get
      (realip_test.newRequest2 "8.8.8.8:9876".toList "unknown".toList
        "1.2.3.4".toList).Header "X-Real-IP".toList) = "1.2.3.4".toList ∧
    ∀ (h : http.Handler) (w : ResponseWriter),
      realip_test.ri2.Handler h w
          (realip_test.newRequest2 "8.8.8.8:9876".toList "unknown".toList "1.2.3.4".toList) =
        h w (realip_test.newRequest2 "8.8.8.8:9876".toList "unknown".toList
          "1.2.3.4".toList) :=
  ⟨by decide, Handler_consults_first_header_only realip_test.ri2
    (realip_test.newRequest2 "8.8.8.8:9876".toList "unknown".toList "1.2.3.4".toList)
    "8.8.8.8".toList "9876".toList [0, 0, 0, 0, 0, 0, 0, 0, 0, 0, 255, 255, 8, 8, 8, 8]
    [] ["X-Real-IP".toList] "X-Forwarded-For".toList
    rfl rfl ⟨_, List.mem_singleton.mpr rfl, rfl⟩ rfl (by simp) (by decide) (by decide)⟩

/-- C14, as stated, fails at a request without port: the first application
rejects the request and leaves it as it was, and the second application, on
that same `RemoteAddr`, yields an error response again. -/
theorem Handler_twice_counterexample :
    realip_test.ri.Handler realip_test.handler []
        (realip_test.newRequest "8.8.8.8".toList "64.63.62.61".toList) =
      ([http.Call.Error "invalid remote address".toList 400],
        realip_test.newRequest "8.8.8.8".toList "64.63.62.61".toList) ∧
    realip_test.ri.Handler realip_test.handler
        [http.Call.Error "invalid remote address".toList 400]
        (realip_test.newRequest "8.8.8.8".toList "64.63.62.61".toList) =
      ([http.Call.Error "invalid remote address".toList 400,
        http.Call.Error "invalid remote address".toList 400],
        realip_test.newRequest "8.8.8.8".toList "64.63.62.61".toList) := by
  decide

/-- C14, amended: for a request whose `RemoteAddr` splits into an IP literal
and a port, which is a request that the first application does not reject,
the wrapped handler applied to the request as the first application left it
writes no error response and hands that request on as it is: the second
application leaves `RemoteAddr` equal to the result of the first. -/
theorem Handler_rewrite_idempotent
    (ri : RealIP) (r : Request) (host port : List Char) (ip : net.IP)
    (hsplit : net.SplitHostPort r.RemoteAddr = .ok (host, port))
    (hip : net.ParseIP host = some ip) :
    ∃ r1, r1.Header = r.Header ∧
      (∀ (h : http.Handler) (w : ResponseWriter), ri.Handler h w r = h w r1) ∧
      ∀ (h : http.Handler) (w : ResponseWriter), ri.Handler h w r1 = h w r1 := by
  have hfirst : ∀ (h : http.Handler) (w : ResponseWriter),
      ri.Handler h w r = h w (RealIP.Handler.loop ri ip port r ri.allowed) :=
    fun h w => Handler_ok (getRemoteAddress_ok hsplit hip) h w
  by_cases ht : ∃ n ∈ ri.allowed, n.Contains ip = true
  · by_cases hne : ri.getRealIPValue r ≠ []
    · have hr1 : RealIP.Handler.loop ri ip port r ri.allowed =
          { r with RemoteAddr := net.JoinHostPort (ri.getRealIPValue r) port } := by
        rw [Handler_loop_trusted ht, if_pos hne]
      refine ⟨{ r with RemoteAddr := net.JoinHostPort (ri.getRealIPValue r) port }, rfl,
        fun h w => by rw [hfirst, hr1], ?_⟩
      obtain ⟨hvalid, -⟩ := getRealIPValue_valid hne
      obtain ⟨ipv, hipv⟩ := Option.isSome_iff_exists.mp hvalid
      obtain ⟨-, hb⟩ := net.ParseIP_bytes hipv
      obtain ⟨hp0, hp1, hp2⟩ := net.SplitHostPort_port hsplit
      have hsplit1 : net.SplitHostPort (net.JoinHostPort (ri.getRealIPValue r) port) =
          .ok (ri.getRealIPValue r, port) :=
        net.SplitHostPort_JoinHostPort
          (fun hm => netip.addrByte_ne (hb _ hm) (by decide) rfl)
          (fun hm => netip.addrByte_ne (hb _ hm) (by decide) rfl) hp0 hp1 hp2
      have hval1 : ri.getRealIPValue
          { r with RemoteAddr := net.JoinHostPort (ri.getRealIPValue r) port } =
            ri.getRealIPValue r := getRealIPValue_congr rfl
      have hra : getRemoteAddress
          { r with RemoteAddr := net.JoinHostPort (ri.getRealIPValue r) port } =
            .ok (ipv, port) := getRemoteAddress_ok hsplit1 hipv
      intro h w
      rw [Handler_ok hra]
      by_cases ht1 : ∃ n ∈ ri.allowed, n.Contains ipv = true
      · rw [Handler_loop_trusted ht1, hval1, if_pos hne]
      · rw [Handler_loop_untrusted (fun n hn => by
          cases hc : n.Contains ipv
          · rfl
          · exact absurd ⟨n, hn, hc⟩ ht1)]
    · have hr1 : RealIP.Handler.loop ri ip port r ri.allowed = r := by
        rw [Handler_loop_trusted ht, if_neg hne]
      exact ⟨r, rfl, fun h w => by rw [hfirst, hr1], fun h w => by rw [hfirst, hr1]⟩
  · have hr1 : RealIP.Handler.loop ri ip port r ri.allowed = r :=
      Handler_loop_untrusted (fun n hn => by
        cases hc : n.Contains ip
        · rfl
        · exact absurd ⟨n, hn, hc⟩ ht)
    exact ⟨r, rfl, fun h w => by rw [hfirst, hr1], fun h w => by rw [hfirst, hr1]⟩

/-- C14, amended, at a trusted peer whose header names an address that is
itself inside the trusted range. -/
theorem Handler_rewrite_idempotent_witness :
    realip_test.ri.Handler realip_test.handler []
        (realip_test.newRequest "8.8.8.8:9876".toList "8.8.1.1".toList) =
      ([http.Call.WriteHeader 200, http.Call.Write "Hello World\n".toList],
        realip_test.newRequest "8.8.1.1:9876".toList "8.8.1.1".toList) ∧
    ∃ r1, r1.Header =
        (realip_test.newRequest "8.8.8.8:9876".toList "8.8.1.1".toList).Header ∧
      (∀ (h : http.Handler) (w : ResponseWriter),
        realip_test.ri.Handler h w
          (realip_test.newRequest "8.8.8.8:9876".toList "8.8.1.1".toList) = h w r1) ∧
      ∀ (h : http.Handler) (w : ResponseWriter), realip_test.ri.Handler h w r1 = h w r1 :=
  ⟨by decide, Handler_rewrite_idempotent realip_test.ri
    (realip_test.newRequest "8.8.8.8:9876".toList "8.8.1.1".toList)
    "8.8.8.8".toList "9876".toList [0, 0, 0, 0, 0, 0, 0, 0, 0, 0, 255, 255, 8, 8, 8, 8]
    rfl rfl⟩

/-- C15: when a substitution occurs (the peer is trusted and the selected
token is not empty), the token is one of the comma-separated parts of the
selected header value with the white space around it removed, exactly as
written, and the new `RemoteAddr` is the token, a colon and the original port
when the token has no colon, and the token in square brackets, a colon and the
original port when the token has a colon. -/
theorem Handler_joins_token_verbatim
    (ri : RealIP) (r : Request) (host port : List Char) (ip : net.IP)
    (hsplit : net.SplitHostPort r.RemoteAddr = .ok (host, port))
    (hip : net.ParseIP host = some ip)
    (htrust : ∃ n ∈ ri.allowed, n.Contains ip = true)
    (hsub : ri.getRealIPValue r ≠ []) :
    (∃ seg ∈ strings.Split (ri.getHeader r) ',',
      ri.getRealIPValue r = strings.TrimSpace seg) ∧
    (':' ∉ ri.getRealIPValue r →
      ∀ (h : http.Handler) (w : ResponseWriter),
        ri.Handler h w r =
          h w { r with RemoteAddr := ri.getRealIPValue r ++ ":".toList ++ port }) ∧
    (':' ∈ ri.getRealIPValue r →
      ∀ (h : http.Handler) (w : ResponseWriter),
        ri.Handler h w r =
          h w { r with RemoteAddr :=
            "[".toList ++ ri.getRealIPValue r ++ "]:".toList ++ port }) := by
  have hfirst : ∀ (h : http.Handler) (w : ResponseWriter), ri.Handler h w r =
      h w { r with RemoteAddr := net.JoinHostPort (ri.getRealIPValue r) port } := by
    intro h w
    rw [Handler_ok (getRemoteAddress_ok hsplit hip), Handler_loop_trusted htrust, if_pos hsub]
  refine ⟨(getRealIPValue_valid hsub).2, ?_, ?_⟩
  · intro hc h w
    have hj : net.JoinHostPort (ri.getRealIPValue r) port =
        ri.getRealIPValue r ++ ":".toList ++ port := by
      unfold net.JoinHostPort
      rw [if_neg (by rw [bytealg.IndexByteString_isSome]; exact hc)]
      rfl
    rw [hfirst, hj]
  · intro hc h w
    have hj : net.JoinHostPort (ri.getRealIPValue r) port =
        "[".toList ++ ri.getRealIPValue r ++ "]:".toList ++ port := by
      unfold net.JoinHostPort
      rw [if_pos (by rw [bytealg.IndexByteString_isSome]; exact hc)]
      rfl
    rw [hfirst, hj]

/-- C15 at a trusted peer whose header holds an IPv6 literal that is not in
canonical form, with white space around it. -/
theorem Handler_joins_token_verbatim_witness :
    realip_test.ri.getRealIPValue
        (realip_test.newRequest "8.8.8.8:9876".toList " 2001:DB8:0:0::1 , 1.2.3.4".toList) =
      "2001:DB8:0:0::1".toList ∧
    (realip_test.ri.Handler realip_test.handler []
        (realip_test.newRequest "8.8.8.8:9876".toList
          " 2001:DB8:0:0::1 , 1.2.3.4".toList)).2.RemoteAddr =
      "[2001:DB8:0:0::1]:9876".toList ∧
    ((∃ seg ∈ strings.Split (realip_test.ri.getHeader
          (realip_test.newRequest "8.8.8.8:9876".toList
            " 2001:DB8:0:0::1 , 1.2.3.4".toList)) ',',
        realip_test.ri.getRealIPValue
          (realip_test.newRequest "8.8.8.8:9876".toList
            " 2001:DB8:0:0::1 , 1.2.3.4".toList) = strings.TrimSpace seg) ∧
      (':' ∉ realip_test.ri.getRealIPValue
          (realip_test.newRequest "8.8.8.8:9876".toList
            " 2001:DB8:0:0::1 , 1.2.3.4".toList) →
        ∀ (h : http.Handler) (w : ResponseWriter),
          realip_test.ri.Handler h w
              (realip_test.newRequest "8.8.8.8:9876".toList
                " 2001:DB8:0:0::1 , 1.2.3.4".toList) =
            h w { realip_test.newRequest "8.8.8.8:9876".toList
                " 2001:DB8:0:0::1 , 1.2.3.4".toList with
              RemoteAddr := realip_test.ri.getRealIPValue
                (realip_test.newRequest "8.8.8.8:9876".toList
                  " 2001:DB8:0:0::1 , 1.2.3.4".toList) ++ ":".toList ++ "9876".toList }) ∧
      (':' ∈ realip_test.ri.getRealIPValue
          (realip_test.newRequest "8.8.8.8:9876".toList
            " 2001:DB8:0:0::1 , 1.2.3.4".toList) →
        ∀ (h : http.Handler) (w : ResponseWriter),
          realip_test.ri.Handler h w
              (realip_test.newRequest "8.8.8.8:9876".toList
                " 2001:DB8:0:0::1 , 1.2.3.4".toList) =
            h w { realip_test.newRequest "8.8.8.8:9876".toList
                " 2001:DB8:0:0::1 , 1.2.3.4".toList with
              RemoteAddr := "[".toList ++ realip_test.ri.getRealIPValue
                (realip_test.newRequest "8.8.8.8:9876".toList
                  " 2001:DB8:0:0::1 , 1.2.3.4".toList) ++ "]:".toList ++ "9876".toList })) :=
  ⟨by decide, by decide, Handler_joins_token_verbatim realip_test.ri
    (realip_test.newRequest "8.8.8.8:9876".toList " 2001:DB8:0:0::1 , 1.2.3.4".toList)
    "8.8.8.8".toList "9876".toList [0, 0, 0, 0, 0, 0, 0, 0, 0, 0, 255, 255, 8, 8, 8, 8]
    rfl rfl ⟨_, List.mem_singleton.mpr rfl, rfl⟩ (by decide)⟩

end realip
